import Mathlib

/-
  Verification development for the Financial-Order-Book repository.

  The model below is a shallow embedding of the engine implemented in
  src/Core/OrderBook.cpp (class OrderBook declared in
  include/orderbook/Core/OrderBook.hpp).  Prices are modelled as exact
  integer ticks of 0.01 (the C++ uses double; none of the properties below
  depend on rounding), quantities as naturals (uint64_t; no trace below
  approaches 2^64), level aggregates as integers, and the C++ pointer identity of a
  PriceLevel is modelled as the pair (side-of-ladder-holding-it, price).
  The header Order.hpp (struct Order's member functions and struct
  PriceLevel) is not present in the repository tree; the handful of its
  members used by OrderBook.cpp are modelled from the specification and
  carry a doc comment saying so.
-/

namespace Orderbook

/-- Prices.  The C++ Price is double; every price this repository and its
spec handle is an exact multiple of 0.01, so the model uses exact integer
ticks of 0.01 (a C++ price p is the tick 100*p).  On that scale the
absolute-tolerance comparison |a − b| < MinPriceIncrement coincides with
tick equality. -/
abbrev Price := ℤ

/-- Order side (Types.hpp: enum class Side : uint8_t { Buy, Sell }). -/
inductive Side where
| buy : Side
| sell : Side
deriving DecidableEq, Repr

/-- The ladder opposite to a side (OrderBook.cpp lines 538, 647). -/
def Side.opposite : Side → Side
| .buy => .sell
| .sell => .buy

/-- Order type (Types.hpp: enum class OrderType { Limit, Market }). -/
inductive OrderType where
| limit : OrderType
| market : OrderType
deriving DecidableEq, Repr

/-- Time in force (Types.hpp: enum class TimeInForce { GTC, IOC, FOK });
declared in the Order constructor (Order.cpp) and never consulted by
OrderBook.cpp. -/
inductive TIF where
| gtc : TIF
| ioc : TIF
| fok : TIF
deriving DecidableEq, Repr

/-- An order.  Fields follow Order.cpp's constructor signature
(id, side, type, tif, price, quantity, symbol, account, timestamp) plus
the filled_quantity member OrderBook.cpp reads and writes. -/
structure Order where
  id : Nat
  side : Side
  otype : OrderType
  tif : TIF
  price : Price
  quantity : Nat
  filled_quantity : Nat
  symbol : String
  account : String
  timestamp : Nat
deriving DecidableEq, Repr

/-- Modelled from the spec: Order::remainingQuantity of the missing
Order.hpp — `remaining() = quantity − filled`. -/
def Order.remainingQuantity (o : Order) : Nat :=
  o.quantity - o.filled_quantity

/-- Modelled from the spec: Order::isFullyFilled of the missing Order.hpp
— an order is fully filled when no quantity remains. -/
def Order.isFullyFilled (o : Order) : Bool :=
  o.remainingQuantity = 0

/-- Modelled from the spec: Order::fill of the missing Order.hpp —
`filled += q` (spec §4.5, trade execution). -/
def Order.fill (o : Order) (q : Nat) : Order :=
  { o with filled_quantity := o.filled_quantity + q }

/-- Modelled from the spec: Order::isBuy of the missing Order.hpp. -/
def Order.isBuy (o : Order) : Bool := o.side = Side.buy

/-- A price level: a FIFO queue of orders at one price with an aggregate
quantity (struct PriceLevel of the missing Order.hpp, modelled from the
spec §3; the queue is kept head-first). total_quantity is an integer so
that the running adjustments OrderBook.cpp performs on it are exact. -/
structure PriceLevel where
  price : Price
  total_quantity : ℤ
  orders : List Order
deriving DecidableEq, Repr

/-- Modelled from the spec: PriceLevel::order_count equals the number of
resident orders (spec invariant I2). -/
def PriceLevel.order_count (l : PriceLevel) : Nat := l.orders.length

/-- Modelled from the spec: PriceLevel::isEmpty. -/
def PriceLevel.isEmpty (l : PriceLevel) : Bool := l.orders.isEmpty

/-- Modelled from the spec: PriceLevel::addOrder appends at the tail and
adds the order's remaining quantity to the aggregate (spec §3, §4.4). -/
def PriceLevel.addOrder (l : PriceLevel) (o : Order) : PriceLevel :=
  { l with orders := l.orders ++ [o],
           total_quantity := l.total_quantity + o.remainingQuantity }

/-- Modelled from the spec: PriceLevel::removeOrder unlinks the order and
subtracts its remaining quantity from the aggregate. -/
def PriceLevel.removeOrder (l : PriceLevel) (oid : Nat) : PriceLevel :=
  match (l.orders.find? (fun m => m.id = oid)) with
  | none => l
  | some m =>
      { l with orders := l.orders.filter (fun m2 => !(m2.id = oid : Bool)),
               total_quantity := l.total_quantity - m.remainingQuantity }

/-- Modelled from the spec: PriceLevel::getFirstOrder returns the head of
the FIFO queue. -/
def PriceLevel.getFirstOrder (l : PriceLevel) : Option Order := l.orders.head?

/-- Modelled from the spec: PriceLevel::updateQuantity subtracts an
executed quantity from the aggregate (spec §4.5: `L.total_quantity −= q`). -/
def PriceLevel.updateQuantity (l : PriceLevel) (q : Nat) : PriceLevel :=
  { l with total_quantity := l.total_quantity - q }

/-- Book update kind (MarketData.hpp: BookUpdate::Type). -/
inductive BookUpdateType where
| add : BookUpdateType
| modify : BookUpdateType
| remove : BookUpdateType
deriving DecidableEq, Repr

/-- One published market-data event.  `book` events carry the sequence
number created in OrderBook::publishBookUpdate; trade, best-price and
depth events are published without one (OrderBook.cpp lines 512-534,
680-682). -/
inductive Event where
| book : BookUpdateType → Side → Price → Nat → Nat → Nat → Event
| trade : Nat → Nat → Nat → Price → Nat → Event
| best : Option Price → ℤ → Option Price → ℤ → Event
| depth : List (Price × ℤ × Nat) → List (Price × ℤ × Nat) → Event
deriving DecidableEq, Repr

/-- The sequence number a published event carries, if any. -/
def Event.seq? : Event → Option Nat
| .book _ _ _ _ _ s => some s
| _ => none

/-- The price of a trade event, if the event is a trade. -/
def Event.tradePrice? : Event → Option Price
| .trade _ _ _ p _ => some p
| _ => none

/-- Risk limits (spec §3 RiskLimits; the refactored RiskManager source is
not in the tree). -/
structure RiskLimits where
  max_order_size : Nat
  max_price : Price
  max_position : ℤ
deriving DecidableEq, Repr

/-- Where an order rests: the C++ OrderLocation stores Order*,
PriceLevel* and the side field passed at construction
(OrderBook.cpp lines 90, 235).  The PriceLevel* points into the by-value
std::vector<PriceLevel> of one ladder (OrderBook.hpp lines 43-44) and is
never refreshed afterwards — maintainSortedOrder rebuilds only
price_index_ — so insertions, erasures and sorts move level values
underneath it.  It is therefore modelled as the pair (ladder the pointer
points into, slot in that vector at capture time), dereferenced by
position; the vectors reserve InitialCapacity up front, so the buffer
does not move.  The Order* points at the heap-allocated order, which
never moves; it is rendered by the indexed id, resolved against the
resting copy. -/
structure OrderLocation where
  level_side : Side
  level_slot : Nat
  side : Side
deriving DecidableEq, Repr

/-- Association-list lookup (models unordered_map::find). -/
def alookup {α β : Type} [DecidableEq α] (l : List (α × β)) (k : α) :
    Option β :=
  (l.find? (fun kv => kv.1 = k)).map (fun kv => kv.2)

/-- Association-list write (models unordered_map operator[] assignment). -/
def aset {α β : Type} [DecidableEq α] (l : List (α × β)) (k : α) (v : β) :
    List (α × β) :=
  if (l.find? (fun kv => kv.1 = k)).isSome then
    l.map (fun kv => if kv.1 = k then (k, v) else kv)
  else
    l ++ [(k, v)]

/-- Association-list erase (models unordered_map::erase). -/
def aerase {α β : Type} [DecidableEq α] (l : List (α × β)) (k : α) :
    List (α × β) :=
  l.filter (fun kv => !(kv.1 = k : Bool))

/-- The whole engine state: the two ladders (std::vector<PriceLevel>
bids_, asks_; best level at the back), the shared price index
(std::unordered_map<Price, PriceLevel*> price_index_), the order index,
the static counters of publishBookUpdate and executeTrade, the risk
manager's order→account table and positions (RiskManager is modelled
from the spec) and the list of published events.  `now` is the logical
clock standing for std::chrono::system_clock::now(). -/
structure EngineState where
  bids : List PriceLevel
  asks : List PriceLevel
  price_index : List (Price × Side)
  order_index : List (Nat × OrderLocation)
  book_seq : Nat
  trade_counter : Nat
  order_accounts : List (Nat × String)
  positions : List ((String × String) × ℤ)
  events : List Event
  now : Nat
deriving DecidableEq, Repr

/-- The empty engine, as after the OrderBook constructor. -/
def initState : EngineState :=
  { bids := [], asks := [], price_index := [], order_index := [],
    book_seq := 0, trade_counter := 1, order_accounts := [],
    positions := [], events := [], now := 0 }

/-- OrderBook::MinPriceIncrement = 0.01 (OrderBook.hpp), i.e. one tick. -/
def MinPriceIncrement : Price := 1

/-- The ladder of a side. -/
def EngineState.ladder (s : EngineState) : Side → List PriceLevel
| .buy => s.bids
| .sell => s.asks

/-- Replace the ladder of a side. -/
def EngineState.setLadder (s : EngineState) : Side → List PriceLevel → EngineState
| .buy, ls => { s with bids := ls }
| .sell, ls => { s with asks := ls }

/-- Find the level with a given price within one ladder (the model of
dereferencing a PriceLevel*). -/
def findLevel (s : EngineState) (sd : Side) (p : Price) : Option PriceLevel :=
  (s.ladder sd).find? (fun l => l.price = p)

/-- Replace the level with a given price within one ladder, in place. -/
def setLevel (s : EngineState) (sd : Side) (p : Price) (lvl : PriceLevel) :
    EngineState :=
  s.setLadder sd ((s.ladder sd).map (fun l => if l.price = p then lvl else l))

/-- Dereference a stored PriceLevel*: read whatever level currently sits
in the slot the pointer points at — vector mutations shift level values
under a stale pointer; a slot beyond the live levels is a dangling
pointer, read as no level. -/
def levelAtSlot (s : EngineState) (sd : Side) (i : Nat) : Option PriceLevel :=
  (s.ladder sd).get? i

/-- Write through a stored PriceLevel*: replace the level at its slot. -/
def setLevelAtSlot (s : EngineState) (sd : Side) (i : Nat)
    (lvl : PriceLevel) : EngineState :=
  s.setLadder sd ((s.ladder sd).set i lvl)

/-- The slot a PriceLevel* returned by findOrCreatePriceLevel occupies:
the position of the level at that price within that ladder (the &*it of
OrderBook.cpp lines 363-365 and 391-392). -/
def slotOf (s : EngineState) (sd : Side) (p : Price) : Nat :=
  (s.ladder sd).findIdx (fun l => l.price = p)

/-- Dereference a stored Order*: the heap-allocated order never moves,
so its current value is the resting copy carrying that id, wherever in
the book it rests. -/
def lookupOrder (s : EngineState) (oid : Nat) : Option Order :=
  (((s.bids ++ s.asks).map (fun l => l.orders)).flatten).find?
    (fun m => m.id = oid)

/-- Append an event that carries no sequence number. -/
def emit (s : EngineState) (e : Event) : EngineState :=
  { s with events := s.events ++ [e] }

/-- OrderBook::publishBookUpdate (OrderBook.cpp lines 524-534): take the
next value of the static book_sequence counter and publish a BookUpdate. -/
def publishBookUpdate (s : EngineState) (ty : BookUpdateType) (sd : Side)
    (p : Price) (q : Nat) (cnt : Nat) : EngineState :=
  let seq := s.book_seq + 1
  { s with book_seq := seq,
           events := s.events ++ [Event.book ty sd p q cnt seq] }

/-- OrderBook::bestBid (lines 274-281): the back of the bid vector. -/
def bestBid (s : EngineState) : Option Price :=
  (s.bids.getLast?).map (fun l => l.price)

/-- OrderBook::bestAsk (lines 283-290): the back of the ask vector. -/
def bestAsk (s : EngineState) : Option Price :=
  (s.asks.getLast?).map (fun l => l.price)

/-- OrderBook::getBestPrices (lines 292-309). -/
def getBestPrices (s : EngineState) : (Option Price × ℤ) × (Option Price × ℤ) :=
  ((match s.bids.getLast? with
    | none => (none, 0)
    | some l => (some l.price, l.total_quantity)),
   (match s.asks.getLast? with
    | none => (none, 0)
    | some l => (some l.price, l.total_quantity)))

/-- OrderBook::getDepth (lines 311-342): up to n levels per side, taken
from the back (best) of each vector. -/
def getDepth (s : EngineState) (n : Nat) :
    List (Price × ℤ × Nat) × List (Price × ℤ × Nat) :=
  ((s.bids.reverse.take n).map (fun l => (l.price, l.total_quantity, l.order_count)),
   (s.asks.reverse.take n).map (fun l => (l.price, l.total_quantity, l.order_count)))

/-- OrderBook::publishMarketDataUpdate (lines 512-522): best prices then
depth(5), both without sequence numbers. -/
def publishMarketDataUpdate (s : EngineState) : EngineState :=
  let bp := getBestPrices s
  let s1 := emit s (Event.best bp.1.1 bp.1.2 bp.2.1 bp.2.2)
  let d := getDepth s1 5
  emit s1 (Event.depth d.1 d.2)

/-- Insert a level in front of the first element the strict comparator
rejects: the model of std::lower_bound + emplace in
findOrCreatePriceLevel (lines 374-391). -/
def insortBy (lt : PriceLevel → PriceLevel → Bool) (x : PriceLevel) :
    List PriceLevel → List PriceLevel
| [] => [x]
| y :: ys => if lt y x then y :: insortBy lt x ys else x :: y :: ys

/-- Sort a ladder with a strict comparator (insertion sort; the source
uses std::sort, identical on the duplicate-free ladders that arise). -/
def sortLevelsBy (lt : PriceLevel → PriceLevel → Bool)
    (ls : List PriceLevel) : List PriceLevel :=
  ls.foldr (insortBy lt) []

/-- The strict comparator each ladder is kept sorted with
(maintainSortedOrder, lines 456-487): bids ascending so the best (highest)
is at the back, asks descending so the best (lowest) is at the back. -/
def ladderLT : Side → PriceLevel → PriceLevel → Bool
| .buy, a, b => a.price < b.price
| .sell, a, b => a.price > b.price

/-- OrderBook::rebuildPriceIndex (lines 493-510): the map is rebuilt from
the bid levels then the ask levels; operator[] lets an ask level at a
shared price overwrite the bid entry, which an earliest-match
association list renders by listing the ask entries first. -/
def rebuildPriceIndex (s : EngineState) : EngineState :=
  { s with price_index :=
      s.asks.map (fun l => (l.price, Side.sell))
        ++ s.bids.map (fun l => (l.price, Side.buy)) }

/-- OrderBook::maintainSortedOrder (lines 454-491): sort both ladders in
their canonical direction, then rebuild the price index. -/
def maintainSortedOrder (s : EngineState) : EngineState :=
  rebuildPriceIndex
    { s with bids := sortLevelsBy (ladderLT Side.buy) s.bids,
             asks := sortLevelsBy (ladderLT Side.sell) s.asks }

/-- OrderBook::findOrCreatePriceLevel (lines 358-404).  The price index
is consulted by exact price, without regard to side; a hit whose level
still resolves within MinPriceIncrement is returned as is, whichever
ladder holds it.  Otherwise a new level is created on the requested
side's ladder at its sorted position and indexed. -/
def findOrCreatePriceLevel (s : EngineState) (p : Price) (sd : Side) :
    EngineState × (Side × Price) :=
  match alookup s.price_index p with
  | some sd0 =>
      (match findLevel s sd0 p with
       | some lvl =>
           if |lvl.price - p| < MinPriceIncrement then (s, (sd0, p))
           else
             let s1 := { s with price_index := aerase s.price_index p }
             let s2 := s1.setLadder sd
               (insortBy (ladderLT sd) { price := p, total_quantity := 0, orders := [] }
                 (s1.ladder sd))
             ({ s2 with price_index := aset s2.price_index p sd }, (sd, p))
       | none =>
           let s1 := { s with price_index := aerase s.price_index p }
           let s2 := s1.setLadder sd
             (insortBy (ladderLT sd) { price := p, total_quantity := 0, orders := [] }
               (s1.ladder sd))
           ({ s2 with price_index := aset s2.price_index p sd }, (sd, p)))
  | none =>
      let s2 := s.setLadder sd
        (insortBy (ladderLT sd) { price := p, total_quantity := 0, orders := [] }
          (s.ladder sd))
      ({ s2 with price_index := aset s2.price_index p sd }, (sd, p))

/-- OrderBook::removePriceLevel (lines 406-452): refuse to remove a
non-empty level; otherwise erase the price-index entry, then remove the
level from the given side's vector when it is found there. -/
def removePriceLevel (s : EngineState) (lvl : PriceLevel) (sd : Side) :
    EngineState :=
  if lvl.isEmpty then
    let s1 := { s with price_index := aerase s.price_index lvl.price }
    s1.setLadder sd
      ((s1.ladder sd).filter (fun l => !(l.price = lvl.price : Bool)))
  else s

/-- Whether an incoming order may trade at an opposite level's price
(processMatching lines 547-554 and executeMatching lines 585-590): a buy
crosses iff its price is at least the level's, a sell iff at most. -/
def canMatch (taker : Order) (levelPrice : Price) : Bool :=
  match taker.side with
  | .buy => levelPrice ≤ taker.price
  | .sell => taker.price ≤ levelPrice

/-- OrderBook::executeTrade (lines 652-709) minus the two fills, which
the caller has already applied to the order values it threads: allocate
the next trade id from the static trade_counter, determine buyer and
seller by side, update both accounts' positions through the risk manager
(RiskManager::updatePosition is modelled from spec §4.7: `+q` to the
buyer's account and symbol, `−q` to the seller's, accounts resolved
through the order→account table) and publish the trade. -/
def executeTrade (s : EngineState) (aggressive passive : Order)
    (trade_price : Price) (trade_quantity : Nat) : EngineState :=
  let tid := s.trade_counter
  let buy_order_id := if aggressive.isBuy then aggressive.id else passive.id
  let sell_order_id := if aggressive.isBuy then passive.id else aggressive.id
  let buy_acct := (alookup s.order_accounts buy_order_id).getD "default"
  let sell_acct := (alookup s.order_accounts sell_order_id).getD "default"
  let sym := aggressive.symbol
  let p1 := aset s.positions (buy_acct, sym)
      (((alookup s.positions (buy_acct, sym)).getD 0) + trade_quantity)
  let p2 := aset p1 (sell_acct, sym)
      (((alookup p1 (sell_acct, sym)).getD 0) - trade_quantity)
  emit { s with trade_counter := tid + 1, positions := p2 }
    (Event.trade tid buy_order_id sell_order_id trade_price trade_quantity)

/-- The inner loop of OrderBook::matchAgainstPriceLevel (lines 601-643),
recursing on the level's FIFO queue.  Each step fills both orders,
executes the trade, subtracts the quantity from the level aggregate
(PriceLevel::updateQuantity), publishes a Remove or Modify book update
(the Remove uses order_count − 1, the maker not yet being unlinked), and
on a full fill erases the maker from the order index and advances to the
next queued order (the C++ `delete current_order; current_order =
next_order`, the unlinking being the spec §4.5 "remove from L, destroy
the order").  Returns the final state, the threaded incoming order, the
level's remaining aggregate and its remaining queue. -/
def matchLoop (lvlPrice : Price) :
    List Order → EngineState → Order → ℤ →
      EngineState × Order × ℤ × List Order
| [], s, taker, tot => (s, taker, tot, [])
| m :: rest, s, taker, tot =>
  if taker.isFullyFilled then (s, taker, tot, m :: rest)
  else
    let q := min taker.remainingQuantity m.remainingQuantity
    if q = 0 then (s, taker, tot, m :: rest)
    else
      let t1 := taker.fill q
      let m1 := m.fill q
      let s1 := executeTrade s t1 m1 lvlPrice q
      let tot1 := tot - q
      if m1.isFullyFilled then
        let s2 := publishBookUpdate s1 BookUpdateType.remove m1.side m1.price 0
            ((m :: rest).length - 1)
        let s3 := { s2 with order_index := aerase s2.order_index m1.id }
        matchLoop lvlPrice rest s3 t1 tot1
      else
        let s2 := publishBookUpdate s1 BookUpdateType.modify m1.side m1.price
            m1.remainingQuantity ((m :: rest).length)
        (s2, t1, tot1, m1 :: rest)

/-- OrderBook::matchAgainstPriceLevel (lines 601-650): run the queue loop
against the level at price p on the ladder opposite the incoming order,
write the surviving level back in place, and remove it from ladder and
price index when it was emptied. -/
def matchAgainstPriceLevel (s : EngineState) (taker : Order) (p : Price) :
    EngineState × Order :=
  let oppSide := taker.side.opposite
  match findLevel s oppSide p with
  | none => (s, taker)
  | some lvl =>
      let r := matchLoop lvl.price lvl.orders s taker lvl.total_quantity
      let lvl1 : PriceLevel :=
        { price := lvl.price, total_quantity := r.2.2.1, orders := r.2.2.2 }
      let s1 := setLevel r.1 oppSide p lvl1
      if lvl1.isEmpty then (removePriceLevel s1 lvl1 oppSide, r.2.1)
      else (s1, r.2.1)

/-- The level walk of OrderBook::executeMatching (lines 578-598) over the
prices of the freshly sorted opposite ladder, best first: stop when the
level is empty or the incoming order is fully filled or the price no
longer crosses, otherwise match against the level and continue. -/
def matchWalk : List Price → EngineState → Order → EngineState × Order
| [], s, taker => (s, taker)
| p :: ps, s, taker =>
  match findLevel s taker.side.opposite p with
  | none => matchWalk ps s taker
  | some lvl =>
      if lvl.isEmpty || taker.isFullyFilled then (s, taker)
      else if !(canMatch taker lvl.price) then (s, taker)
      else
        match matchAgainstPriceLevel s taker p with
        | (s1, t1) => matchWalk ps s1 t1

/-- OrderBook::executeMatching (lines 562-599): re-sort the opposite
ladder so the best price comes first in iteration order — ascending for
a buy (asks), descending for a sell (bids); the sort leaves the vector
in the opposite convention of the one bestBid/bestAsk read — then match
level by level. -/
def executeMatching (s : EngineState) (taker : Order) :
    EngineState × Order :=
  let oppSide := taker.side.opposite
  let sorted := sortLevelsBy
    (fun a b => match taker.side with
      | .buy => a.price < b.price
      | .sell => a.price > b.price)
    (s.ladder oppSide)
  let s1 := s.setLadder oppSide sorted
  matchWalk (sorted.map (fun l => l.price)) s1 taker

/-- OrderBook::processMatching (lines 536-560): no-op when the opposite
ladder is empty; otherwise read the best opposite level at the back and
run executeMatching when the incoming price crosses it and it is
non-empty. -/
def processMatching (s : EngineState) (taker : Order) :
    EngineState × Order :=
  let opp := s.ladder taker.side.opposite
  match opp.getLast? with
  | none => (s, taker)
  | some best =>
      if canMatch taker best.price && !best.isEmpty then
        executeMatching s taker
      else (s, taker)

/-- Modelled from the spec (§4.2): RiskManager::validateOrder of the
missing refactored RiskManager — order size limit, price band for limit
orders, and the worst-case hypothetical post-trade position of the
order's account. -/
def riskAccepts (lim : RiskLimits) (s : EngineState) (o : Order)
    (acct : String) : Bool :=
  let pos := (alookup s.positions (acct, o.symbol)).getD 0
  let hyp : ℤ := match o.side with
    | .buy => pos + o.quantity
    | .sell => pos - o.quantity
  (o.quantity ≤ lim.max_order_size : Bool)
    && (match o.otype with
        | .limit => (0 < o.price : Bool) && (o.price ≤ lim.max_price : Bool)
        | .market => true)
    && (|hyp| ≤ lim.max_position : Bool)

/-- Write through an Order*: the C++ order object is heap-allocated and
mutated in place (the taker threaded into processMatching, the target of
a modify), so every level queue holding it sees the new value.  This
write-back replaces the resting copy with that id wherever it rests,
realizing the aliasing in the by-value model. -/
def storeOrderBack (s : EngineState) (o : Order) : EngineState :=
  { s with
    bids := s.bids.map (fun l =>
      { l with orders := l.orders.map (fun m => if m.id = o.id then o else m) }),
    asks := s.asks.map (fun l =>
      { l with orders := l.orders.map (fun m => if m.id = o.id then o else m) }) }

/-- OrderBook::removePriceLevel (lines 406-452) called on a stored
PriceLevel*: refuse unless the pointed-at level is empty; erase its price
from the price index; then search the given side's vector for the element
at that address (the find_if at line 435 compares addresses) and erase
it — which finds the slot itself when the side names the vector the
pointer points into, and nothing otherwise. -/
def removePriceLevelAt (s : EngineState) (ptrSide : Side) (slot : Nat)
    (sd : Side) : EngineState :=
  match levelAtSlot s ptrSide slot with
  | none => s
  | some lvl =>
      if lvl.isEmpty then
        let s1 := { s with price_index := aerase s.price_index lvl.price }
        if sd = ptrSide then
          s1.setLadder sd ((s1.ladder sd).eraseIdx slot)
        else s1
      else s

/-- The rest-into-level step shared by OrderBook::addOrder (lines 75-87)
and the price-changing branch of OrderBook::modifyOrder (lines 218-228):
find or create the level for the order's price — whichever ladder the
shared price index resolves it to — and append the order at its tail.
Returns the new state and the location of the level that received the
order. -/
def restIntoLevel (s : EngineState) (o : Order) :
    EngineState × Side × Price :=
  match findOrCreatePriceLevel s o.price o.side with
  | (s3, loc) =>
    let s4 :=
      match findLevel s3 loc.1 loc.2 with
      | none => s3
      | some lvl => setLevel s3 loc.1 loc.2 (lvl.addOrder o)
    (s4, loc)

/-- OrderBook::addOrder (lines 26-115): associate the order with its
account and run the risk gate (the association precedes validation);
reject duplicates; stamp the order; rest it into the level
findOrCreatePriceLevel returns (whichever ladder holds it); index it;
re-sort; publish the Add; match; publish best prices and depth. -/
def addOrder (lim : RiskLimits) (s : EngineState) (order : Order) :
    EngineState × Except String Nat :=
  let acct := if order.account = "" then "default" else order.account
  let s1 := { s with order_accounts := aset s.order_accounts order.id acct }
  if !(riskAccepts lim s1 order acct) then
    (s1, Except.error "Risk validation failed")
  else if (alookup s1.order_index order.id).isSome then
    (s1, Except.error "Order ID already exists")
  else
    let o := { order with timestamp := s1.now }
    let s2 := { s1 with now := s1.now + 1 }
    match restIntoLevel s2 o with
    | (s4, loc) =>
      let oloc : OrderLocation :=
        { level_side := loc.1, level_slot := slotOf s4 loc.1 loc.2,
          side := o.side }
      let s5 := { s4 with order_index := aset s4.order_index o.id oloc }
      let s6 := maintainSortedOrder s5
      let cnt := match findLevel s6 loc.1 loc.2 with
        | none => 0
        | some lvl => lvl.order_count
      let s7 := publishBookUpdate s6 BookUpdateType.add o.side o.price
          o.remainingQuantity cnt
      match processMatching s7 o with
      | (s8, t1) =>
        let s9 := storeOrderBack s8 t1
        (publishMarketDataUpdate s9, Except.ok o.id)

/-- OrderBook::cancelOrder (lines 117-172): look the id up, read the
order through its Order*, remove it from the level the stored PriceLevel*
currently designates, publish a Remove with that level's post-removal
order count, drop that level if emptied (removePriceLevel on the
pointer), erase the index entry, destroy the order and publish best
prices and depth.  An unresolvable location returns the "Invalid order
location" error, as the isValid guard does. -/
def cancelOrder (s : EngineState) (oid : Nat) :
    EngineState × Except String Bool :=
  match alookup s.order_index oid with
  | none => (s, Except.error "Order not found")
  | some loc =>
      match lookupOrder s oid with
      | none => (s, Except.error "Invalid order location")
      | some o =>
          let s1 := match levelAtSlot s loc.level_side loc.level_slot with
            | none => s
            | some lvl => setLevelAtSlot s loc.level_side loc.level_slot
                (lvl.removeOrder oid)
          let cnt := match levelAtSlot s1 loc.level_side loc.level_slot with
            | none => 0
            | some lvl => lvl.order_count
          let s2 := publishBookUpdate s1 BookUpdateType.remove o.side
              o.price o.remainingQuantity cnt
          let s3 := match levelAtSlot s2 loc.level_side loc.level_slot with
            | none => s2
            | some lvl =>
                if lvl.isEmpty then
                  removePriceLevelAt s2 loc.level_side loc.level_slot loc.side
                else s2
          let s4 := { s3 with order_index := aerase s3.order_index oid }
          (publishMarketDataUpdate s4, Except.ok true)

/-- The price-changing block of OrderBook::modifyOrder (lines 197-238):
remove the order from the level the stored PriceLevel* currently
designates (publishing a Remove with that level's post-removal count),
drop that level if emptied, rewrite the order's price through its
Order* — its timestamp is left untouched — rest it at the tail of the
level for the new price (publishing an Add), store the new level's
pointer in the index and re-sort. -/
def modifyMovePrice (s : EngineState) (oid : Nat) (loc : OrderLocation)
    (o : Order) (new_price : Price) :
    EngineState × OrderLocation × Order :=
  let old_price := o.price
  let old_rem := o.remainingQuantity
  let s1 := match levelAtSlot s loc.level_side loc.level_slot with
    | none => s
    | some lvl => setLevelAtSlot s loc.level_side loc.level_slot
        (lvl.removeOrder oid)
  let cnt := match levelAtSlot s1 loc.level_side loc.level_slot with
    | none => 0
    | some lvl => lvl.order_count
  let s2 := publishBookUpdate s1 BookUpdateType.remove o.side old_price
      old_rem cnt
  let s3 := match levelAtSlot s2 loc.level_side loc.level_slot with
    | none => s2
    | some lvl =>
        if lvl.isEmpty then
          removePriceLevelAt s2 loc.level_side loc.level_slot loc.side
        else s2
  let o1 := { o with price := new_price }
  match restIntoLevel s3 o1 with
  | (s5, nloc) =>
    let cnt2 := match findLevel s5 nloc.1 nloc.2 with
      | none => 0
      | some nlvl => nlvl.order_count
    let s6 := publishBookUpdate s5 BookUpdateType.add o1.side
        new_price o1.remainingQuantity cnt2
    let nloc1 : OrderLocation :=
      { level_side := nloc.1, level_slot := slotOf s5 nloc.1 nloc.2,
        side := o1.side }
    let s7 := { s6 with order_index := aset s6.order_index oid nloc1 }
    (maintainSortedOrder s7, nloc1, o1)

/-- The quantity block of OrderBook::modifyOrder (lines 240-260): read
the PriceLevel* stored in order_index_ and adjust THAT level's aggregate
around the change — the pointer is never refreshed, so once level
insertions or erasures have shifted the vector it may designate a
different level than the one holding the order — set the new quantity on
the order itself through its stable Order*, clamping filled_quantity
down to it when it exceeds it, and publish a Modify with the pointed-at
level's order count. -/
def modifyQuantity (s : EngineState) (_oid : Nat) (locm : OrderLocation)
    (om : Order) (new_quantity : Nat) : EngineState :=
  let old_rem := om.remainingQuantity
  let o1 := { om with quantity := new_quantity }
  let o2 := if new_quantity < o1.filled_quantity then
              { o1 with filled_quantity := new_quantity }
            else o1
  let s1 := match levelAtSlot s locm.level_side locm.level_slot with
    | none => s
    | some lvl => setLevelAtSlot s locm.level_side locm.level_slot
        { lvl with
          total_quantity :=
            lvl.total_quantity - old_rem + o2.remainingQuantity }
  let s2 := storeOrderBack s1 o2
  let cnt := match levelAtSlot s2 locm.level_side locm.level_slot with
    | none => 0
    | some lvl => lvl.order_count
  publishBookUpdate s2 BookUpdateType.modify o2.side o2.price
    o2.remainingQuantity cnt

/-- OrderBook::modifyOrder (lines 174-271): look the id up and read the
order through its Order*; run the price-changing block when the new
price is positive and leaves the MinPriceIncrement band of the order's
price; then run the quantity block when the new quantity is positive;
publish best prices and depth. -/
def modifyOrder (s : EngineState) (oid : Nat) (new_price : Price)
    (new_quantity : Nat) : EngineState × Except String Bool :=
  match alookup s.order_index oid with
  | none => (s, Except.error "Order not found")
  | some loc =>
      match lookupOrder s oid with
      | none => (s, Except.error "Invalid order location")
      | some o =>
          let moved : EngineState × OrderLocation × Order :=
            if 0 < new_price ∧ MinPriceIncrement < |o.price - new_price| then
              modifyMovePrice s oid loc o new_price
            else (s, loc, o)
          match moved with
          | (sm, locm, om) =>
            let after : EngineState :=
              if 0 < new_quantity then modifyQuantity sm oid locm om new_quantity
              else sm
            (publishMarketDataUpdate after, Except.ok true)



/-- The ok payload of an engine result, if any. -/
def resultId : Except String Nat → Option Nat
| .ok v => some v
| .error _ => none

/-- Whether an engine result is an error. -/
def isError {α : Type} : Except String α → Bool
| .ok _ => false
| .error _ => true

/-- Risk limits used by the concrete traces below (within every trace's
orders, so the gate always passes unless a trace is built to fail it). -/
def demoLimits : RiskLimits :=
  { max_order_size := 1000, max_price := 100000000, max_position := 100000 }

/-- A fresh incoming order (filled 0, empty account, symbol "S"); prices
are in ticks of 0.01. -/
def mkOrder (id : Nat) (sd : Side) (ty : OrderType) (tf : TIF) (p : Price)
    (q : Nat) : Order :=
  { id := id, side := sd, otype := ty, tif := tf, price := p, quantity := q,
    filled_quantity := 0, symbol := "S", account := "", timestamp := 0 }

/-- C1 trace: a resting bid of 5 at 100.00, then a sell limit GTC of 5 at
90.00, which matches in full. -/
def c1State : EngineState :=
  (addOrder demoLimits
    (addOrder demoLimits initState
      (mkOrder 1 Side.buy OrderType.limit TIF.gtc 10000 5)).1
    (mkOrder 2 Side.sell OrderType.limit TIF.gtc 9000 5)).1

/-- The result of the second (fully matched) addOrder of the C1 trace. -/
def c1Result : Except String Nat :=
  (addOrder demoLimits
    (addOrder demoLimits initState
      (mkOrder 1 Side.buy OrderType.limit TIF.gtc 10000 5)).1
    (mkOrder 2 Side.sell OrderType.limit TIF.gtc 9000 5)).2

/-- C1: the claim fails on the code.  Order 2 is accepted (ok) and fully
matched — the single trade of the call has quantity 5, its whole size —
yet after addOrder returns it is still registered in the order index and
still sits, fully filled, in the ask level at 90.00 that addOrder rested
it into before matching: an accepted fully matched order remains resident,
where the claim requires it to have been destroyed. -/
theorem c1_fully_matched_order_stays_resident :
    resultId c1Result = some 2 ∧
    (c1State.events.filterMap Event.tradePrice? = [10000]) ∧
    (alookup c1State.order_index 2).isSome = true ∧
    (∃ lvl, findLevel c1State Side.sell 9000 = some lvl ∧
      ∃ m, m ∈ lvl.orders ∧ m.id = 2 ∧ m.remainingQuantity = 0) := by
  refine ⟨by decide, by decide, by decide, ?_⟩
  refine ⟨{ price := 9000, total_quantity := 5,
            orders := [{ id := 2, side := Side.sell, otype := OrderType.limit,
                         tif := TIF.gtc, price := 9000, quantity := 5,
                         filled_quantity := 5, symbol := "S", account := "",
                         timestamp := 1 }] }, by decide, ?_⟩
  refine ⟨{ id := 2, side := Side.sell, otype := OrderType.limit,
            tif := TIF.gtc, price := 9000, quantity := 5,
            filled_quantity := 5, symbol := "S", account := "",
            timestamp := 1 }, by decide, by decide, by decide⟩

/-- C2 trace: a resting bid of 10 at 100.00, then a sell limit GTC of 5 at
90.00; the taker is fully matched at 100.00 but its remainderless husk
rests at 90.00 on the ask side. -/
def c2State : EngineState :=
  (addOrder demoLimits
    (addOrder demoLimits initState
      (mkOrder 1 Side.buy OrderType.limit TIF.gtc 10000 10)).1
    (mkOrder 2 Side.sell OrderType.limit TIF.gtc 9000 5)).1

/-- C2: the claim fails on the code.  After the second addOrder of the C2
trace completes — matching included — both best prices exist and
bestBid() = 100.00 exceeds bestAsk() = 90.00: a crossed book is
observable, because the fully matched sell taker was rested at 90.00
before matching and never removed. -/
theorem c2_crossed_book_observable :
    bestBid c2State = some 10000 ∧ bestAsk c2State = some 9000 ∧
    ¬ (10000 : Price) < (9000 : Price) := by
  exact ⟨by decide, by decide, by decide⟩

/-- C3 trace: resting bids at 99.00 and 100.00, then a sell limit GTC of
1 at 99.50, which trades 1 at 100.00; executeMatching leaves the bid
vector sorted descending, the reverse of what bestBid expects. -/
def c3State : EngineState :=
  (addOrder demoLimits
    (addOrder demoLimits
      (addOrder demoLimits initState
        (mkOrder 1 Side.buy OrderType.limit TIF.gtc 9900 10)).1
      (mkOrder 2 Side.buy OrderType.limit TIF.gtc 10000 10)).1
    (mkOrder 3 Side.sell OrderType.limit TIF.gtc 9950 1)).1

/-- C3: the claim fails on the code.  After an addOrder that executed a
match, the bid ladder is left in descending order (executeMatching
re-sorted it for the sell taker and nothing restores the canonical
ascending layout), so bestBid() — which reads the back of the vector —
returns 99.00 even though a bid level at 100.00 with resting quantity is
still present: bestBid is not the maximum resting bid price. -/
theorem c3_best_bid_not_maximum_after_match :
    bestBid c3State = some 9900 ∧
    (∃ lvl, findLevel c3State Side.buy 10000 = some lvl ∧
      lvl.orders ≠ []) ∧
    (9900 : Price) < (10000 : Price) := by
  refine ⟨by decide, ?_, by decide⟩
  refine ⟨{ price := 10000, total_quantity := 9,
            orders := [{ id := 2, side := Side.buy, otype := OrderType.limit,
                         tif := TIF.gtc, price := 10000, quantity := 10,
                         filled_quantity := 1, symbol := "S", account := "",
                         timestamp := 1 }] }, by decide, by decide⟩

/-- C5 trace: a resting ask of 30 at 101.00, then a buy limit FOK of 100
at 101.50 — more than the whole opposite side holds. -/
def c5Pre : EngineState :=
  (addOrder demoLimits initState
    (mkOrder 10 Side.sell OrderType.limit TIF.gtc 10100 30)).1

/-- The FOK addOrder of the C5 trace. -/
def c5Run : EngineState × Except String Nat :=
  addOrder demoLimits c5Pre
    (mkOrder 99 Side.buy OrderType.limit TIF.fok 10150 100)

/-- C5: the claim fails on the code, which contains no FOK handling at
all.  The FOK buy for 100 against a book holding only 30 is accepted
(ok, not rejected), a trade for 30 at 101.00 executes — a partial fill —
the order rests with filled = 30 of 100, the book state changed (the ask
level at 101.00 is gone) and events were emitted. -/
theorem c5_fok_partially_fills :
    resultId c5Run.2 = some 99 ∧
    (c5Run.1.events.filterMap Event.tradePrice? = [10100]) ∧
    (∃ lvl, findLevel c5Run.1 Side.buy 10150 = some lvl ∧
      ∃ m, m ∈ lvl.orders ∧ m.id = 99 ∧ m.filled_quantity = 30 ∧
        m.quantity = 100) ∧
    findLevel c5Run.1 Side.sell 10100 = none ∧
    c5Run.1.events.length ≠ c5Pre.events.length := by
  refine ⟨by decide, by decide, ?_, by decide, by decide⟩
  refine ⟨{ price := 10150, total_quantity := 100,
            orders := [{ id := 99, side := Side.buy, otype := OrderType.limit,
                         tif := TIF.fok, price := 10150, quantity := 100,
                         filled_quantity := 30, symbol := "S", account := "",
                         timestamp := 1 }] }, by decide, ?_⟩
  refine ⟨{ id := 99, side := Side.buy, otype := OrderType.limit,
            tif := TIF.fok, price := 10150, quantity := 100,
            filled_quantity := 30, symbol := "S", account := "",
            timestamp := 1 }, by decide, by decide, by decide, by decide⟩


/-- C6 counterexample input: an order for 1001 (over demoLimits'
max_order_size of 1000) for account "alice". -/
def c6Order : Order :=
  { mkOrder 7 Side.buy OrderType.limit TIF.gtc 10000 1001 with
    account := "alice" }

/-- The risk-rejected addOrder of the C6 trace. -/
def c6Run : EngineState × Except String Nat :=
  addOrder demoLimits initState c6Order

/-- C6: the claim fails on the code.  The oversize order is rejected, yet
the engine's state is not exactly as before the call: addOrder calls
RiskManager::associateOrderWithAccount before validateOrder, so the
rejected order's id→account association persists in the risk manager. -/
theorem c6_rejection_mutates_risk_manager :
    isError c6Run.2 = true ∧
    alookup c6Run.1.order_accounts 7 = some "alice" ∧
    alookup initState.order_accounts 7 = none ∧
    c6Run.1 ≠ initState := by
  exact ⟨by decide, by decide, by decide, by decide⟩

/-- C6 amended: whenever addOrder, cancelOrder or modifyOrder returns an
error, the state is exactly as before the call except that a failed
addOrder has recorded the order's id→account association in the risk
manager (written before validation); in particular no book, index,
position or event mutation occurs and no sequence number is consumed. -/
theorem c6_error_leaves_only_account_association (lim : RiskLimits)
    (s : EngineState) (o : Order) (oid : Nat) (np : Price) (nq : Nat)
    (e1 e2 e3 : String) :
    ((addOrder lim s o).2 = Except.error e1 →
      (addOrder lim s o).1 =
        { s with order_accounts := (aset s.order_accounts o.id (if o.account = "" then "default" else o.account)) }) ∧
    ((cancelOrder s oid).2 = Except.error e2 → (cancelOrder s oid).1 = s) ∧
    ((modifyOrder s oid np nq).2 = Except.error e3 →
      (modifyOrder s oid np nq).1 = s) := by
  refine ⟨?_, ?_, ?_⟩
  · intro h
    simp only [addOrder] at h ⊢
    split_ifs at h ⊢ <;> rfl
  · intro h
    unfold cancelOrder at h ⊢
    split at h
    · rfl
    · split at h
      · rfl
      · exact Except.noConfusion h
  · intro h
    unfold modifyOrder at h ⊢
    split at h
    · rfl
    · split at h
      · rfl
      · exact Except.noConfusion h

/-- Witness for the C6 amended theorem: a risk-rejected add, a cancel of
an unknown id and a modify of an unknown id, each leaving the state as
the theorem says. -/
theorem c6_error_purity_witness :
    (addOrder demoLimits initState c6Order).1 =
      { initState with order_accounts := (aset initState.order_accounts c6Order.id (if c6Order.account = "" then "default" else c6Order.account)) } ∧
    (cancelOrder initState 5).1 = initState ∧
    (modifyOrder initState 5 10000 1).1 = initState := by
  refine ⟨?_, ?_, ?_⟩
  · exact (c6_error_leaves_only_account_association demoLimits initState
      c6Order 5 10000 1 "Risk validation failed" "Order not found"
      "Order not found").1 (by rfl)
  · exact (c6_error_leaves_only_account_association demoLimits initState
      c6Order 5 10000 1 "Risk validation failed" "Order not found"
      "Order not found").2.1 (by rfl)
  · exact (c6_error_leaves_only_account_association demoLimits initState
      c6Order 5 10000 1 "Risk validation failed" "Order not found"
      "Order not found").2.2 (by rfl)

/-- A level found at price p has price p. -/
theorem findLevel_price {s : EngineState} {sd : Side} {p : Price}
    {lvl : PriceLevel} (h : findLevel s sd p = some lvl) : lvl.price = p := by
  unfold findLevel at h
  have := List.find?_some h
  simpa using this

/-- publishBookUpdate only touches events and the sequence counter. -/
theorem ladder_publishBookUpdate (s : EngineState) (ty : BookUpdateType)
    (sd0 : Side) (p : Price) (q cnt : Nat) (x : Side) :
    (publishBookUpdate s ty sd0 p q cnt).ladder x = s.ladder x := by
  cases x <;> rfl

/-- emit only touches events. -/
theorem ladder_emit (s : EngineState) (e : Event) (x : Side) :
    (emit s e).ladder x = s.ladder x := by
  cases x <;> rfl

/-- publishMarketDataUpdate only touches events. -/
theorem ladder_publishMarketDataUpdate (s : EngineState) (x : Side) :
    (publishMarketDataUpdate s).ladder x = s.ladder x := by
  cases x <;> rfl

/-- setLevel leaves the other ladder alone. -/
theorem ladder_setLevel_other (s : EngineState) (sd : Side) (p : Price)
    (lvl : PriceLevel) (x : Side) (hx : x ≠ sd) :
    (setLevel s sd p lvl).ladder x = s.ladder x := by
  cases sd <;> cases x <;> first | rfl | exact absurd rfl hx

/-- The order index is untouched by setLevel. -/
theorem order_index_setLevel (s : EngineState) (sd : Side) (p : Price)
    (lvl : PriceLevel) :
    (setLevel s sd p lvl).order_index = s.order_index := by
  cases sd <;> rfl

/-- The order index is untouched by publishBookUpdate. -/
theorem order_index_publishBookUpdate (s : EngineState)
    (ty : BookUpdateType) (sd0 : Side) (p : Price) (q cnt : Nat) :
    (publishBookUpdate s ty sd0 p q cnt).order_index = s.order_index := rfl

/-- The order index is untouched by publishMarketDataUpdate. -/
theorem order_index_publishMarketDataUpdate (s : EngineState) :
    (publishMarketDataUpdate s).order_index = s.order_index := rfl

/-- Replacing the level resting at price p makes find-by-price return the
replacement, provided the replacement keeps the price. -/
theorem findLevel_setLevel_self {s : EngineState} {sd : Side} {p : Price}
    {lvl : PriceLevel} (lvl1 : PriceLevel)
    (h : findLevel s sd p = some lvl) (hp : lvl1.price = p) :
    findLevel (setLevel s sd p lvl1) sd p = some lvl1 := by
  have hladder : (setLevel s sd p lvl1).ladder sd =
      (s.ladder sd).map (fun l => if l.price = p then lvl1 else l) := by
    cases sd <;> rfl
  unfold findLevel at h ⊢
  rw [hladder, List.find?_map]
  have hpred : (fun l => ((if l.price = p then lvl1 else l).price = p : Bool))
      = (fun l : PriceLevel => (l.price = p : Bool)) := by
    funext l
    by_cases hl : l.price = p
    · simp [hl, hp]
    · simp [hl]
  show ((s.ladder sd).find? fun l => ((if l.price = p then lvl1 else l).price = p : Bool)).map _ = _
  rw [hpred, h]
  have hlp : lvl.price = p := by
    have := List.find?_some h
    simpa using this
  simp [hlp]

/-- find-by-price is unchanged by publishBookUpdate. -/
theorem findLevel_publishBookUpdate (s : EngineState) (ty : BookUpdateType)
    (sd0 : Side) (p0 : Price) (q cnt : Nat) (sd : Side) (p : Price) :
    findLevel (publishBookUpdate s ty sd0 p0 q cnt) sd p = findLevel s sd p := by
  unfold findLevel
  rw [ladder_publishBookUpdate]

/-- find-by-price is unchanged by publishMarketDataUpdate. -/
theorem findLevel_publishMarketDataUpdate (s : EngineState) (sd : Side)
    (p : Price) :
    findLevel (publishMarketDataUpdate s) sd p = findLevel s sd p := by
  unfold findLevel
  rw [ladder_publishMarketDataUpdate]

/-- C7 clamp trace: a bid of 10 at 100.00 (id 1) is partially filled for
4 by a sell at 99.50, leaving filled = 4; then modifyOrder(1, same price
100.00, new quantity 3) with new_quantity < filled. -/
def c7State : EngineState :=
  (modifyOrder
    (addOrder demoLimits
      (addOrder demoLimits initState
        (mkOrder 1 Side.buy OrderType.limit TIF.gtc 10000 10)).1
      (mkOrder 2 Side.sell OrderType.limit TIF.gtc 9950 4)).1
    1 10000 3).1

/-- The stored order 1 after the C7 clamp trace: quantity clamps the
filled amount and nothing removes the order. -/
def c7Expected : Order :=
  { id := 1, side := Side.buy, otype := OrderType.limit, tif := TIF.gtc,
    price := 10000, quantity := 3, filled_quantity := 3, symbol := "S",
    account := "", timestamp := 0 }

/-- C7 stale-pointer trace: bids are added at 100.00 (id 1, qty 10), then
101.00 (id 2, qty 7), then 99.00 (id 3, qty 5).  The last insertion goes
to slot 0 of the ascending bid vector and shifts both resident levels one
slot up, while the PriceLevel* stored for order 2 still points at slot 1 —
which now holds the 100.00 level.  Then modifyOrder(2, 101.00, 4): the
price is unchanged, so only the quantity block runs, through the stale
pointer. -/
def c7StaleState : EngineState :=
  (modifyOrder
    (addOrder demoLimits
      (addOrder demoLimits
        (addOrder demoLimits initState
          (mkOrder 1 Side.buy OrderType.limit TIF.gtc 10000 10)).1
        (mkOrder 2 Side.buy OrderType.limit TIF.gtc 10100 7)).1
      (mkOrder 3 Side.buy OrderType.limit TIF.gtc 9900 5)).1
    2 10100 4).1

/-- C7: the claim fails on the code, twice over.  (1) The quantity block
of modifyOrder (OrderBook.cpp lines 246-255) adjusts the level aggregate
through the PriceLevel* stored in order_index_, which nothing refreshes
when vector insertions shift the levels: on the stale-pointer trace the
modify of order 2 (resting at 101.00) succeeds and rewrites order 2's
quantity to 4, but subtracts-and-adds the remaining-quantity delta on the
level at 100.00 — order 1's level, whose total drops to 7 while the only
order resting there still has remaining 10 — and leaves the 101.00
level's total at 7 while its only order now has remaining 4: the level's
total_quantity does NOT change by (new_remaining − old_remaining) on the
order's own level.  (2) On the clamp trace, new_quantity (3) below filled
(4) clamps filled to 3 and zeroes the remaining — but the order is not
removed: it is still in the order index and still sits in its level,
where the claim requires removal. -/
theorem c7_stale_pointer_modifies_wrong_level :
    (isError (modifyOrder
        (addOrder demoLimits
          (addOrder demoLimits
            (addOrder demoLimits initState
              (mkOrder 1 Side.buy OrderType.limit TIF.gtc 10000 10)).1
            (mkOrder 2 Side.buy OrderType.limit TIF.gtc 10100 7)).1
          (mkOrder 3 Side.buy OrderType.limit TIF.gtc 9900 5)).1
        2 10100 4).2 = false) ∧
    (alookup c7StaleState.order_index 2 =
      some { level_side := Side.buy, level_slot := 1, side := Side.buy }) ∧
    ((findLevel c7StaleState Side.buy 10100).map
      (fun l => (l.total_quantity,
        l.orders.map (fun x => (x.id, x.remainingQuantity)))) =
      some (7, [(2, 4)])) ∧
    ((findLevel c7StaleState Side.buy 10000).map
      (fun l => (l.total_quantity,
        l.orders.map (fun x => (x.id, x.remainingQuantity)))) =
      some (7, [(1, 10)])) ∧
    (alookup c7State.order_index 1).isSome = true ∧
    ((findLevel c7State Side.buy 10000).map
      (fun l => l.orders.find? (fun x => x.id = 1)) =
      some (some c7Expected)) ∧
    c7Expected.remainingQuantity = 0 := by
  refine ⟨?_, ?_, ?_, ?_, ?_, ?_, ?_⟩ <;> decide

/-- Inserting with insortBy permutes consing at the front. -/
theorem insortBy_perm (lt : PriceLevel → PriceLevel → Bool)
    (x : PriceLevel) (ls : List PriceLevel) :
    List.Perm (insortBy lt x ls) (x :: ls) := by
  induction ls with
  | nil => simp [insortBy]
  | cons y ys ih =>
      unfold insortBy
      by_cases hy : lt y x
      · simp only [if_pos hy]
        exact (List.Perm.cons y ih).trans (List.Perm.swap x y ys)
      · simp only [if_neg hy]
        exact List.Perm.refl _

/-- sortLevelsBy permutes its input. -/
theorem sortLevelsBy_perm (lt : PriceLevel → PriceLevel → Bool)
    (ls : List PriceLevel) : List.Perm (sortLevelsBy lt ls) ls := by
  induction ls with
  | nil => simp [sortLevelsBy]
  | cons y ys ih =>
      unfold sortLevelsBy at ih ⊢
      exact (insortBy_perm lt y (ys.foldr (insortBy lt) [])).trans
        (List.Perm.cons y ih)

/-- A key absent from an association list stays absent after any erase. -/
theorem alookup_aerase_none {α β : Type} [DecidableEq α]
    {l : List (α × β)} {k : α} (k2 : α) (h : alookup l k = none) :
    alookup (aerase l k2) k = none := by
  unfold alookup at h ⊢
  unfold aerase
  rw [Option.map_eq_none'] at h ⊢
  rw [List.find?_eq_none] at h ⊢
  intro x hx
  exact h x (List.mem_of_mem_filter hx)

/-- The unique member at price p is what find-by-price returns. -/
theorem find?_unique_mem {p : Price} {u : PriceLevel} {ls : List PriceLevel}
    (hu : u ∈ ls) (hp : u.price = p)
    (huniq : ∀ l ∈ ls, l.price = p → l = u) :
    ls.find? (fun l => (l.price = p : Bool)) = some u := by
  induction ls with
  | nil => simp at hu
  | cons a as ih =>
      by_cases ha : a.price = p
      · have hau : a = u := huniq a (List.mem_cons_self a as) ha
        subst hau
        simp [List.find?_cons, ha]
      · rw [List.find?_cons, decide_eq_false ha]
        show List.find? _ as = some u
        apply ih
        · rcases List.mem_cons.mp hu with h | h
          · exact absurd (h ▸ hp) ha
          · exact h
        · intro l hl hlp
          exact huniq l (List.mem_cons_of_mem a hl) hlp


/-- Membership in a ladder after setLevel is the replacement or an
original member. -/
theorem mem_ladder_setLevel {s : EngineState} {sd : Side} {p : Price}
    {lv : PriceLevel} {x : Side} {l : PriceLevel}
    (h : l ∈ (setLevel s sd p lv).ladder x) :
    l = lv ∨ l ∈ s.ladder x := by
  by_cases hx : x = sd
  · subst hx
    have hladder : (setLevel s x p lv).ladder x =
        (s.ladder x).map (fun l0 => if l0.price = p then lv else l0) := by
      cases x <;> rfl
    rw [hladder] at h
    rcases List.mem_map.mp h with ⟨l0, hl0, hl0e⟩
    by_cases hc : l0.price = p
    · rw [if_pos hc] at hl0e
      exact Or.inl hl0e.symm
    · rw [if_neg hc] at hl0e
      exact Or.inr (hl0e ▸ hl0)
  · rw [ladder_setLevel_other s sd p lv x hx] at h
    exact Or.inr h

/-- Membership in the rewritten ladder after setLevel, sharply: either
the replacement, or an untouched original whose price is not p. -/
theorem mem_ladder_setLevel_same {s : EngineState} {sd : Side} {p : Price}
    {lv : PriceLevel} {l : PriceLevel}
    (h : l ∈ (setLevel s sd p lv).ladder sd) :
    l = lv ∨ (l ∈ s.ladder sd ∧ l.price ≠ p) := by
  have hladder : (setLevel s sd p lv).ladder sd =
      (s.ladder sd).map (fun l0 => if l0.price = p then lv else l0) := by
    cases sd <;> rfl
  rw [hladder] at h
  rcases List.mem_map.mp h with ⟨l0, hl0, hl0e⟩
  by_cases hc : l0.price = p
  · rw [if_pos hc] at hl0e
    exact Or.inl hl0e.symm
  · rw [if_neg hc] at hl0e
    exact Or.inr ⟨hl0e ▸ hl0, hl0e ▸ hc⟩

/-- Membership in a ladder after removePriceLevel implies original
membership. -/
theorem mem_ladder_removePriceLevel {s : EngineState} {lv : PriceLevel}
    {sd x : Side} {l : PriceLevel}
    (h : l ∈ (removePriceLevel s lv sd).ladder x) : l ∈ s.ladder x := by
  unfold removePriceLevel at h
  by_cases he : lv.isEmpty
  · rw [if_pos he] at h
    by_cases hx : x = sd
    · subst hx
      have hladder :
          ((EngineState.setLadder { s with price_index := aerase s.price_index lv.price } x
            ((({ s with price_index := aerase s.price_index lv.price } : EngineState).ladder x).filter
              (fun l0 => !(l0.price = lv.price : Bool)))).ladder x) =
          ((s.ladder x).filter (fun l0 => !(l0.price = lv.price : Bool))) := by
        cases x <;> rfl
      rw [hladder] at h
      exact List.mem_of_mem_filter h
    · have hladder :
          ((EngineState.setLadder { s with price_index := aerase s.price_index lv.price } sd
            ((({ s with price_index := aerase s.price_index lv.price } : EngineState).ladder sd).filter
              (fun l0 => !(l0.price = lv.price : Bool)))).ladder x) = s.ladder x := by
        cases sd <;> cases x <;> first | rfl | exact absurd rfl hx
      rw [hladder] at h
      exact h
  · rw [if_neg he] at h
    exact h

/-- The price index is untouched by setLevel. -/
theorem price_index_setLevel (s : EngineState) (sd : Side) (p : Price)
    (lv : PriceLevel) : (setLevel s sd p lv).price_index = s.price_index := by
  cases sd <;> rfl

/-- The price index is untouched by publishBookUpdate. -/
theorem price_index_publishBookUpdate (s : EngineState)
    (ty : BookUpdateType) (sd : Side) (p : Price) (q cnt : Nat) :
    (publishBookUpdate s ty sd p q cnt).price_index = s.price_index := rfl

/-- No level at price p rests anywhere in the book nor is indexed there. -/
def NoLevelAt (s : EngineState) (p : Price) : Prop :=
  alookup s.price_index p = none ∧
  ∀ sd : Side, ∀ l ∈ s.ladder sd, l.price ≠ p

/-- setLevel preserves NoLevelAt when the replacement is elsewhere. -/
theorem NoLevelAt_setLevel {s : EngineState} {p : Price} (sd : Side)
    (p0 : Price) {lv : PriceLevel} (hlv : lv.price ≠ p)
    (h : NoLevelAt s p) : NoLevelAt (setLevel s sd p0 lv) p := by
  refine ⟨?_, ?_⟩
  · rw [price_index_setLevel]
    exact h.1
  · intro x l hl
    rcases mem_ladder_setLevel hl with hc | hc
    · exact hc ▸ hlv
    · exact h.2 x l hc

/-- publishBookUpdate preserves NoLevelAt. -/
theorem NoLevelAt_publishBookUpdate {s : EngineState} {p : Price}
    (ty : BookUpdateType) (sd : Side) (p0 : Price) (q cnt : Nat)
    (h : NoLevelAt s p) : NoLevelAt (publishBookUpdate s ty sd p0 q cnt) p := by
  refine ⟨h.1, ?_⟩
  intro x l hl
  rw [ladder_publishBookUpdate] at hl
  exact h.2 x l hl

/-- removePriceLevel preserves NoLevelAt. -/
theorem NoLevelAt_removePriceLevel {s : EngineState} {p : Price}
    (lv : PriceLevel) (sd : Side) (h : NoLevelAt s p) :
    NoLevelAt (removePriceLevel s lv sd) p := by
  refine ⟨?_, ?_⟩
  · unfold removePriceLevel
    by_cases he : lv.isEmpty
    · rw [if_pos he]
      have hpi : ((EngineState.setLadder
          { s with price_index := aerase s.price_index lv.price } sd
          ((({ s with price_index := aerase s.price_index lv.price } : EngineState).ladder sd).filter
            (fun l0 => !(l0.price = lv.price : Bool)))).price_index) =
          aerase s.price_index lv.price := by
        cases sd <;> rfl
      rw [hpi]
      exact alookup_aerase_none lv.price h.1
    · rw [if_neg he]
      exact h.1
  · intro x l hl
    exact h.2 x l (mem_ladder_removePriceLevel hl)


/-- A found level is a member of its ladder. -/
theorem findLevel_mem {s : EngineState} {sd : Side} {p : Price}
    {lvl : PriceLevel} (h : findLevel s sd p = some lvl) :
    lvl ∈ s.ladder sd := by
  unfold findLevel at h
  exact List.mem_of_find?_eq_some h

/-- The ladders after maintainSortedOrder are the sorted ladders. -/
theorem ladder_maintainSortedOrder (s : EngineState) (x : Side) :
    (maintainSortedOrder s).ladder x = sortLevelsBy (ladderLT x) (s.ladder x) := by
  cases x <;> rfl

/-- After maintainSortedOrder, find-by-price returns the unique level at
that price. -/
theorem findLevel_maintainSortedOrder_unique {s : EngineState} {x : Side}
    {p : Price} {u : PriceLevel} (hu : u ∈ s.ladder x) (hp : u.price = p)
    (huniq : ∀ l ∈ s.ladder x, l.price = p → l = u) :
    findLevel (maintainSortedOrder s) x p = some u := by
  unfold findLevel
  rw [ladder_maintainSortedOrder]
  have hperm := sortLevelsBy_perm (ladderLT x) (s.ladder x)
  exact find?_unique_mem (hperm.mem_iff.mpr hu) hp
    (fun l hl hlp => huniq l (hperm.mem_iff.mp hl) hlp)

/-- At a price absent from the index, findOrCreatePriceLevel creates a
fresh empty level on the requested ladder at its sorted position. -/
theorem findOrCreatePriceLevel_fresh (s : EngineState) (p : Price)
    (sd : Side) (h : alookup s.price_index p = none) :
    (findOrCreatePriceLevel s p sd).2 = (sd, p) ∧
    (∀ x : Side, (findOrCreatePriceLevel s p sd).1.ladder x =
      (if x = sd then
        insortBy (ladderLT sd) { price := p, total_quantity := 0, orders := [] }
          (s.ladder sd)
       else s.ladder x)) ∧
    (findOrCreatePriceLevel s p sd).1.order_index = s.order_index := by
  unfold findOrCreatePriceLevel
  rw [h]
  dsimp only
  refine ⟨rfl, ?_, ?_⟩
  · intro x
    by_cases hx : x = sd
    · subst hx
      rw [if_pos rfl]
      cases x <;> rfl
    · rw [if_neg hx]
      cases x <;> cases sd <;> first | rfl | exact absurd rfl hx
  · cases sd <;> rfl

/-- Resting an order at a fresh price creates exactly one new level — a
singleton holding the order — on the order's own ladder, and leaves the
other ladder and the order index unchanged. -/
theorem restIntoLevel_fresh (s : EngineState) (o : Order)
    (h : NoLevelAt s o.price) :
    (restIntoLevel s o).2 = (o.side, o.price) ∧
    findLevel (restIntoLevel s o).1 o.side o.price =
      some { price := o.price, total_quantity := (o.remainingQuantity : ℤ),
             orders := [o] } ∧
    (∀ l ∈ (restIntoLevel s o).1.ladder o.side, l.price = o.price →
      l = { price := o.price, total_quantity := (o.remainingQuantity : ℤ),
            orders := [o] }) ∧
    (∀ x : Side, x ≠ o.side → (restIntoLevel s o).1.ladder x = s.ladder x) ∧
    (restIntoLevel s o).1.order_index = s.order_index := by
  obtain ⟨hA, hB, hC⟩ := findOrCreatePriceLevel_fresh s o.price o.side h.1
  have hnew : ({ price := o.price, total_quantity := 0, orders := [] }
      : PriceLevel).addOrder o =
      { price := o.price, total_quantity := (o.remainingQuantity : ℤ),
        orders := [o] } := by
    unfold PriceLevel.addOrder
    simp
  have hmem0 : ({ price := o.price, total_quantity := 0, orders := [] }
      : PriceLevel) ∈ (findOrCreatePriceLevel s o.price o.side).1.ladder o.side := by
    rw [hB o.side, if_pos rfl]
    exact (insortBy_perm _ _ _).mem_iff.mpr (List.mem_cons_self _ _)
  have huniq0 : ∀ l ∈ (findOrCreatePriceLevel s o.price o.side).1.ladder o.side,
      l.price = o.price →
      l = { price := o.price, total_quantity := 0, orders := [] } := by
    intro l hl hlp
    rw [hB o.side, if_pos rfl] at hl
    rcases List.mem_cons.mp ((insortBy_perm _ _ _).mem_iff.mp hl) with hc | hc
    · exact hc
    · exact absurd hlp (h.2 o.side l hc)
  have hfind3 : findLevel (findOrCreatePriceLevel s o.price o.side).1
      o.side o.price =
      some { price := o.price, total_quantity := 0, orders := [] } := by
    unfold findLevel
    exact find?_unique_mem hmem0 rfl huniq0
  unfold restIntoLevel
  dsimp only
  rw [hA]
  dsimp only
  rw [hfind3]
  dsimp only
  refine ⟨rfl, ?_, ?_, ?_, ?_⟩
  · rw [hnew]
    exact findLevel_setLevel_self _ hfind3 rfl
  · intro l hl hlp
    rw [hnew] at hl
    rcases mem_ladder_setLevel_same hl with hc | hc
    · exact hc
    · exact absurd hlp hc.2
  · intro x hx
    rw [ladder_setLevel_other _ _ _ _ _ hx]
    rw [hB x, if_neg hx]
  · rw [order_index_setLevel]
    exact hC


/-- removeOrder keeps the level's price. -/
theorem removeOrder_price (lvl : PriceLevel) (oid : Nat) :
    (lvl.removeOrder oid).price = lvl.price := by
  unfold PriceLevel.removeOrder
  split <;> rfl

/-- C8 trace: bids id 1 at 101.00 (timestamp 0) and id 2 at 100.00
(timestamp 1); then modifyOrder(2, 101.00, 5) moves order 2 across
levels. -/
def c8Pre : EngineState :=
  (addOrder demoLimits
    (addOrder demoLimits initState
      (mkOrder 1 Side.buy OrderType.limit TIF.gtc 10100 5)).1
    (mkOrder 2 Side.buy OrderType.limit TIF.gtc 10000 5)).1

/-- The state after the price-changing modify of the C8 trace. -/
def c8Post : EngineState := (modifyOrder c8Pre 2 10100 5).1

/-- C8: the timestamp clause fails on the code.  The moved order is
appended at the tail of the level at 101.00 (ids [1, 2]: time priority
lost, as claimed) — but it carries its ORIGINAL timestamp 1, unchanged
from before the modify, while the engine clock already stands at 2: no
new engine-assigned timestamp exists anywhere in modifyOrder. -/
theorem c8_moved_order_keeps_old_timestamp :
    (∃ lvl, findLevel c8Post Side.buy 10100 = some lvl ∧
      lvl.orders.map (fun x => x.id) = [1, 2] ∧
      (lvl.orders.getLast?).map (fun x => x.timestamp) = some 1) ∧
    c8Post.now = 2 ∧
    (∃ lvl, findLevel c8Pre Side.buy 10000 = some lvl ∧
      ((lvl.orders.find? (fun x => x.id = 2)).map (fun x => x.timestamp)
        = some 1)) := by
  refine ⟨?_, by decide, ?_⟩
  · refine ⟨{
      price := 10100,
      total_quantity := 10,
      orders := [mkOrder 1 Side.buy OrderType.limit TIF.gtc 10100 5,
        { mkOrder 2 Side.buy OrderType.limit TIF.gtc 10100 5 with
          timestamp := 1 }] }, by decide, by decide, by decide⟩
  · refine ⟨{
      price := 10000,
      total_quantity := 5,
      orders := [{ mkOrder 2 Side.buy OrderType.limit TIF.gtc 10000 5 with
        timestamp := 1 }] }, by decide, by decide⟩

/-- The sequence numbers of the book-update events, in emission order. -/
def bookSeqs (evs : List Event) : List Nat := evs.filterMap Event.seq?

/-- The sequencing invariant: the book-update events emitted so far carry
exactly the consecutive sequence numbers 1..book_seq, in order. -/
def SeqInv (s : EngineState) : Prop :=
  bookSeqs s.events = List.range' 1 s.book_seq

/-- States with the same events and counter share SeqInv. -/
theorem seqInv_of_eq {s s' : EngineState} (he : s'.events = s.events)
    (hb : s'.book_seq = s.book_seq) (h : SeqInv s) : SeqInv s' := by
  unfold SeqInv at *
  rw [he, hb]
  exact h

/-- publishBookUpdate extends the consecutive numbering by one. -/
theorem seqInv_publishBookUpdate {s : EngineState} (ty : BookUpdateType)
    (sd : Side) (p : Price) (q cnt : Nat) (h : SeqInv s) :
    SeqInv (publishBookUpdate s ty sd p q cnt) := by
  unfold SeqInv bookSeqs publishBookUpdate at *
  simp only [List.filterMap_append, h]
  have : List.filterMap Event.seq? [Event.book ty sd p q cnt (s.book_seq + 1)]
      = [s.book_seq + 1] := rfl
  rw [this, List.range'_1_concat, Nat.add_comm 1 s.book_seq]

/-- Emitting an unsequenced event preserves the invariant. -/
theorem seqInv_emit {s : EngineState} {e : Event} (he : Event.seq? e = none)
    (h : SeqInv s) : SeqInv (emit s e) := by
  unfold SeqInv bookSeqs emit at *
  simp only [List.filterMap_append]
  have : List.filterMap Event.seq? [e] = [] := by
    simp [List.filterMap, he]
  rw [this, List.append_nil]
  exact h

/-- executeTrade emits one unsequenced trade event. -/
theorem seqInv_executeTrade {s : EngineState} (t m : Order) (p : Price)
    (q : Nat) (h : SeqInv s) : SeqInv (executeTrade s t m p q) := by
  unfold executeTrade
  apply seqInv_emit
  · rfl
  · exact seqInv_of_eq rfl rfl h

/-- The match loop only appends sequenced book updates and unsequenced
trades. -/
theorem seqInv_matchLoop (p : Price) (queue : List Order) :
    ∀ (s : EngineState) (t : Order) (tot : ℤ), SeqInv s →
      SeqInv (matchLoop p queue s t tot).1 := by
  induction queue with
  | nil =>
      intro s t tot h
      exact h
  | cons m rest ih =>
      intro s t tot h
      unfold matchLoop
      by_cases h1 : t.isFullyFilled
      · rw [if_pos h1]
        exact h
      · rw [if_neg h1]
        by_cases h2 : min t.remainingQuantity m.remainingQuantity = 0
        · rw [if_pos h2]
          exact h
        · rw [if_neg h2]
          dsimp only
          by_cases h3 : (m.fill (min t.remainingQuantity m.remainingQuantity)).isFullyFilled
          · rw [if_pos h3]
            apply ih
            apply seqInv_of_eq rfl rfl
            apply seqInv_publishBookUpdate
            exact seqInv_executeTrade _ _ _ _ h
          · rw [if_neg h3]
            apply seqInv_publishBookUpdate
            exact seqInv_executeTrade _ _ _ _ h

/-- removePriceLevel leaves events and counter alone. -/
theorem seqState_removePriceLevel (s : EngineState) (lv : PriceLevel)
    (sd : Side) : (removePriceLevel s lv sd).events = s.events ∧
      (removePriceLevel s lv sd).book_seq = s.book_seq := by
  unfold removePriceLevel
  by_cases he : lv.isEmpty
  · rw [if_pos he]
    cases sd <;> exact ⟨rfl, rfl⟩
  · rw [if_neg he]
    exact ⟨rfl, rfl⟩

/-- setLevel leaves events and counter alone. -/
theorem seqState_setLevel (s : EngineState) (sd : Side) (p : Price)
    (lv : PriceLevel) : (setLevel s sd p lv).events = s.events ∧
      (setLevel s sd p lv).book_seq = s.book_seq := by
  cases sd <;> exact ⟨rfl, rfl⟩

/-- matchAgainstPriceLevel preserves the invariant. -/
theorem seqInv_matchAgainstPriceLevel {s : EngineState} (t : Order)
    (p : Price) (h : SeqInv s) :
    SeqInv (matchAgainstPriceLevel s t p).1 := by
  simp only [matchAgainstPriceLevel]
  split
  · exact h
  · split
    · apply seqInv_of_eq (seqState_removePriceLevel _ _ _).1
        (seqState_removePriceLevel _ _ _).2
      apply seqInv_of_eq (seqState_setLevel _ _ _ _).1
        (seqState_setLevel _ _ _ _).2
      exact seqInv_matchLoop _ _ _ _ _ h
    · apply seqInv_of_eq (seqState_setLevel _ _ _ _).1
        (seqState_setLevel _ _ _ _).2
      exact seqInv_matchLoop _ _ _ _ _ h


/-- The level walk preserves the invariant. -/
theorem seqInv_matchWalk (ps : List Price) :
    ∀ (s : EngineState) (t : Order), SeqInv s →
      SeqInv (matchWalk ps s t).1 := by
  induction ps with
  | nil => intro s t h; exact h
  | cons p ps ih =>
      intro s t h
      unfold matchWalk
      split
      · exact ih _ _ h
      · split
        · exact h
        · split
          · exact h
          · exact ih _ _ (seqInv_matchAgainstPriceLevel _ _ h)

/-- setLadder leaves events and counter alone. -/
theorem seqState_setLadder (s : EngineState) (sd : Side)
    (ls : List PriceLevel) : (s.setLadder sd ls).events = s.events ∧
      (s.setLadder sd ls).book_seq = s.book_seq := by
  cases sd <;> exact ⟨rfl, rfl⟩

/-- executeMatching preserves the invariant. -/
theorem seqInv_executeMatching {s : EngineState} (t : Order)
    (h : SeqInv s) : SeqInv (executeMatching s t).1 := by
  unfold executeMatching
  apply seqInv_matchWalk
  exact seqInv_of_eq (seqState_setLadder _ _ _).1 (seqState_setLadder _ _ _).2 h

/-- processMatching preserves the invariant. -/
theorem seqInv_processMatching {s : EngineState} (t : Order)
    (h : SeqInv s) : SeqInv (processMatching s t).1 := by
  simp only [processMatching]
  split
  · exact h
  · split
    · exact seqInv_executeMatching _ h
    · exact h

/-- publishMarketDataUpdate emits two unsequenced events. -/
theorem seqInv_publishMarketDataUpdate {s : EngineState} (h : SeqInv s) :
    SeqInv (publishMarketDataUpdate s) := by
  unfold publishMarketDataUpdate
  apply seqInv_emit
  · rfl
  · exact seqInv_emit rfl h

/-- findOrCreatePriceLevel leaves events and counter alone. -/
theorem seqState_findOrCreatePriceLevel (s : EngineState) (p : Price)
    (sd : Side) : (findOrCreatePriceLevel s p sd).1.events = s.events ∧
      (findOrCreatePriceLevel s p sd).1.book_seq = s.book_seq := by
  unfold findOrCreatePriceLevel
  split
  · split
    · split
      · exact ⟨rfl, rfl⟩
      · dsimp only
        cases sd <;> exact ⟨rfl, rfl⟩
    · dsimp only
      cases sd <;> exact ⟨rfl, rfl⟩
  · dsimp only
    cases sd <;> exact ⟨rfl, rfl⟩

/-- restIntoLevel leaves events and counter alone. -/
theorem seqState_restIntoLevel (s : EngineState) (o : Order) :
    (restIntoLevel s o).1.events = s.events ∧
      (restIntoLevel s o).1.book_seq = s.book_seq := by
  unfold restIntoLevel
  dsimp only
  split
  · exact seqState_findOrCreatePriceLevel _ _ _
  · constructor
    · rw [(seqState_setLevel _ _ _ _).1]
      exact (seqState_findOrCreatePriceLevel _ _ _).1
    · rw [(seqState_setLevel _ _ _ _).2]
      exact (seqState_findOrCreatePriceLevel _ _ _).2

/-- maintainSortedOrder leaves events and counter alone. -/
theorem seqState_maintainSortedOrder (s : EngineState) :
    (maintainSortedOrder s).events = s.events ∧
      (maintainSortedOrder s).book_seq = s.book_seq := ⟨rfl, rfl⟩

/-- storeOrderBack leaves events and counter alone. -/
theorem seqState_storeOrderBack (s : EngineState) (o : Order) :
    (storeOrderBack s o).events = s.events ∧
      (storeOrderBack s o).book_seq = s.book_seq := ⟨rfl, rfl⟩

/-- setLevelAtSlot leaves events and counter alone. -/
theorem seqState_setLevelAtSlot (s : EngineState) (sd : Side) (i : Nat)
    (lvl : PriceLevel) : (setLevelAtSlot s sd i lvl).events = s.events ∧
      (setLevelAtSlot s sd i lvl).book_seq = s.book_seq := by
  cases sd <;> exact ⟨rfl, rfl⟩

/-- removePriceLevelAt leaves events and counter alone. -/
theorem seqState_removePriceLevelAt (s : EngineState) (ptrSide : Side)
    (slot : Nat) (sd : Side) :
    (removePriceLevelAt s ptrSide slot sd).events = s.events ∧
      (removePriceLevelAt s ptrSide slot sd).book_seq = s.book_seq := by
  unfold removePriceLevelAt
  split
  · exact ⟨rfl, rfl⟩
  · split
    · split
      · cases sd <;> exact ⟨rfl, rfl⟩
      · exact ⟨rfl, rfl⟩
    · exact ⟨rfl, rfl⟩

/-- The price-changing modify block preserves the invariant. -/
theorem seqInv_modifyMovePrice {s : EngineState} (oid : Nat)
    (loc : OrderLocation) (o : Order) (np : Price) (h : SeqInv s) :
    SeqInv (modifyMovePrice s oid loc o np).1 := by
  unfold modifyMovePrice
  dsimp only
  apply seqInv_of_eq (seqState_maintainSortedOrder _).1
    (seqState_maintainSortedOrder _).2
  apply seqInv_of_eq rfl rfl
  apply seqInv_publishBookUpdate
  apply seqInv_of_eq (seqState_restIntoLevel _ _).1
    (seqState_restIntoLevel _ _).2
  split
  · apply seqInv_publishBookUpdate
    split
    · exact h
    · exact seqInv_of_eq (seqState_setLevelAtSlot _ _ _ _).1
        (seqState_setLevelAtSlot _ _ _ _).2 h
  · split
    · apply seqInv_of_eq (seqState_removePriceLevelAt _ _ _ _).1
        (seqState_removePriceLevelAt _ _ _ _).2
      apply seqInv_publishBookUpdate
      split
      · exact h
      · exact seqInv_of_eq (seqState_setLevelAtSlot _ _ _ _).1
          (seqState_setLevelAtSlot _ _ _ _).2 h
    · apply seqInv_publishBookUpdate
      split
      · exact h
      · exact seqInv_of_eq (seqState_setLevelAtSlot _ _ _ _).1
          (seqState_setLevelAtSlot _ _ _ _).2 h

/-- The quantity modify block preserves the invariant. -/
theorem seqInv_modifyQuantity {s : EngineState} (oid : Nat)
    (locm : OrderLocation) (om : Order) (nq : Nat) (h : SeqInv s) :
    SeqInv (modifyQuantity s oid locm om nq) := by
  unfold modifyQuantity
  dsimp only
  apply seqInv_publishBookUpdate
  apply seqInv_of_eq (seqState_storeOrderBack _ _).1
    (seqState_storeOrderBack _ _).2
  split
  · exact h
  · exact seqInv_of_eq (seqState_setLevelAtSlot _ _ _ _).1
      (seqState_setLevelAtSlot _ _ _ _).2 h

/-- C9 amended: only BookDelta (BookUpdate) events carry sequence
numbers, drawn from the counter in publishBookUpdate; across every public
operation the book-update events' sequence numbers remain exactly the
consecutive run 1..book_seq in emission order — strictly monotonic with
step 1 and never reused — while Trade, BestPrices and depth events are
emitted without any sequence number. -/
theorem c9_book_update_sequencing (lim : RiskLimits) (s : EngineState) (o : Order)
    (oid oid2 : Nat) (np : Price) (nq : Nat) (h : SeqInv s) :
    SeqInv (addOrder lim s o).1 ∧ SeqInv (cancelOrder s oid).1 ∧
    SeqInv (modifyOrder s oid2 np nq).1 := by
  refine ⟨?_, ?_, ?_⟩
  · simp only [addOrder]
    split_ifs <;>
      first
      | exact seqInv_of_eq rfl rfl h
      | (dsimp only
         apply seqInv_publishMarketDataUpdate
         apply seqInv_of_eq (seqState_storeOrderBack _ _).1
           (seqState_storeOrderBack _ _).2
         apply seqInv_processMatching
         apply seqInv_publishBookUpdate
         apply seqInv_of_eq (seqState_maintainSortedOrder _).1
           (seqState_maintainSortedOrder _).2
         apply seqInv_of_eq rfl rfl
         apply seqInv_of_eq (seqState_restIntoLevel _ _).1
           (seqState_restIntoLevel _ _).2
         exact seqInv_of_eq rfl rfl h)
  · unfold cancelOrder
    split
    · exact h
    · split
      · exact h
      · dsimp only
        apply seqInv_publishMarketDataUpdate
        apply seqInv_of_eq rfl rfl
        split
        · apply seqInv_publishBookUpdate
          split
          · exact h
          · exact seqInv_of_eq (seqState_setLevelAtSlot _ _ _ _).1
              (seqState_setLevelAtSlot _ _ _ _).2 h
        · split
          · apply seqInv_of_eq (seqState_removePriceLevelAt _ _ _ _).1
              (seqState_removePriceLevelAt _ _ _ _).2
            apply seqInv_publishBookUpdate
            split
            · exact h
            · exact seqInv_of_eq (seqState_setLevelAtSlot _ _ _ _).1
                (seqState_setLevelAtSlot _ _ _ _).2 h
          · apply seqInv_publishBookUpdate
            split
            · exact h
            · exact seqInv_of_eq (seqState_setLevelAtSlot _ _ _ _).1
                (seqState_setLevelAtSlot _ _ _ _).2 h
  · unfold modifyOrder
    split
    · exact h
    · split
      · exact h
      · dsimp only
        apply seqInv_publishMarketDataUpdate
        split <;> (try split) <;>
          first
          | exact h
          | exact seqInv_modifyMovePrice _ _ _ _ h
          | (apply seqInv_modifyQuantity
             first
             | exact h
             | exact seqInv_modifyMovePrice _ _ _ _ h)


/-- C9 trace: a resting bid of 10 at 100.00 then a crossing sell of 5 at
90.00, producing one trade among the published events. -/
def c9State : EngineState :=
  (addOrder demoLimits
    (addOrder demoLimits initState
      (mkOrder 1 Side.buy OrderType.limit TIF.gtc 10000 10)).1
    (mkOrder 2 Side.sell OrderType.limit TIF.gtc 9000 5)).1

/-- C9: the claim fails on the code.  The C9 trace emits a Trade event
and several BestPrices/depth events that carry no sequence number at all
(five of the eight published events are unsequenced): the single counter
in publishBookUpdate is consulted only for BookDelta events, so it is
false that every emitted event consumes the next sequence number. -/
theorem c9_trade_and_best_events_unsequenced :
    (Event.trade 1 1 2 10000 5) ∈ c9State.events ∧
    Event.seq? (Event.trade 1 1 2 10000 5) = none ∧
    (c9State.events.filter (fun e => (Event.seq? e).isNone)).length = 5 ∧
    c9State.events.length = 8 := by
  exact ⟨by decide, rfl, by decide, by decide⟩

/-- Witness for the C9 amended theorem at concrete inputs, starting from
the freshly constructed engine. -/
theorem c9_sequencing_witness :
    SeqInv (addOrder demoLimits initState
      (mkOrder 3 Side.buy OrderType.limit TIF.gtc 10000 5)).1 ∧
    SeqInv (cancelOrder initState 9).1 ∧
    SeqInv (modifyOrder initState 9 1 1).1 :=
  c9_book_update_sequencing demoLimits initState
    (mkOrder 3 Side.buy OrderType.limit TIF.gtc 10000 5) 9 9 1 1 (by rfl)


/-- C10 trace: a resting ask of 30 at 101.00 (id 10). -/
def c10Pre : EngineState :=
  (addOrder demoLimits initState
    (mkOrder 10 Side.sell OrderType.limit TIF.gtc 10100 30)).1

/-- The C10 incoming buy at the same price 101.00. -/
def c10Order : Order := mkOrder 50 Side.buy OrderType.limit TIF.gtc 10100 10

/-- The ask level of the C10 pre-state. -/
def c10Lvl : PriceLevel :=
  { price := 10100, total_quantity := 30,
    orders := [{ mkOrder 10 Side.sell OrderType.limit TIF.gtc 10100 30 with
      timestamp := 0 }] }

/-- C10: confirmed.  First, in general: whenever the shared price index
maps price p to a ladder side sd whose level resolves, then for ANY
requested side findOrCreatePriceLevel returns that existing level — on
ladder sd — and creates nothing (the state is unchanged).  Second, on the
concrete C10 trace, the buy order 50 submitted at 101.00 while an ask
level rests there is enqueued into that ask-ladder level (behind the
resting sell, at the tail), its order-index entry points at the sell
ladder, and no bid level at 101.00 exists after the call. -/
theorem c10_price_index_is_side_blind :
    (∀ (s : EngineState) (p : Price) (sd side : Side) (lvl : PriceLevel),
      alookup s.price_index p = some sd →
      findLevel s sd p = some lvl →
      findOrCreatePriceLevel s p side = (s, (sd, p))) ∧
    (alookup (addOrder demoLimits c10Pre c10Order).1.order_index 50 =
      some { level_side := Side.sell, level_slot := 0, side := Side.buy }) ∧
    findLevel (addOrder demoLimits c10Pre c10Order).1 Side.buy 10100 = none ∧
    ((findLevel (addOrder demoLimits c10Pre c10Order).1 Side.sell 10100).map
      (fun l => l.orders.map (fun x => x.id)) = some [10, 50]) := by
  refine ⟨?_, by decide, by decide, by decide⟩
  intro s p sd side lvl h1 h2
  unfold findOrCreatePriceLevel
  rw [h1]
  dsimp only
  rw [h2]
  dsimp only
  have habs : |lvl.price - p| < MinPriceIncrement := by
    rw [findLevel_price h2]
    simp [MinPriceIncrement]
  rw [if_pos habs]

/-- Witness for the general half of the C10 theorem: on the C10
pre-state, a BUY request at 101.00 is resolved by the side-blind index to
the existing ask-ladder level, creating nothing. -/
theorem c10_side_blind_witness :
    findOrCreatePriceLevel c10Pre 10100 Side.buy =
      (c10Pre, (Side.sell, 10100)) :=
  c10_price_index_is_side_blind.1 c10Pre 10100 Side.sell Side.buy c10Lvl
    (by decide) (by decide)

/-- The prices of the trade events of an event list, in emission order. -/
def tradePrices (evs : List Event) : List Price :=
  evs.filterMap Event.tradePrice?

/-- The maker ids of the trade events executed at price p, in emission
order: for a buy taker the maker is the seller, for a sell taker the
buyer. -/
def makerIdsAt (ts : Side) (p : Price) (evs : List Event) : List Nat :=
  evs.filterMap (fun e => match e with
    | Event.trade _ b sl q _ =>
        if q = p then
          some (match ts with | Side.buy => sl | Side.sell => b)
        else none
    | _ => none)

/-- The favourable price direction of a taker: a buy consumes asks from
cheap to dear, a sell consumes bids from dear to cheap. -/
def dirR : Side → Price → Price → Prop
| Side.buy => fun a b => a ≤ b
| Side.sell => fun a b => b ≤ a

/-- Filling keeps an order's side. -/
theorem fill_side (t : Order) (q : Nat) : (t.fill q).side = t.side := rfl

/-- Whether a taker crosses a price ignores its fill and stamp. -/
theorem canMatch_fill (t : Order) (q : Nat) (p : Price) :
    canMatch (t.fill q) p = canMatch t p := rfl

/-- tradePrices distributes over append. -/
theorem tradePrices_append (a b : List Event) :
    tradePrices (a ++ b) = tradePrices a ++ tradePrices b := by
  simp [tradePrices]

/-- makerIdsAt distributes over append. -/
theorem makerIdsAt_append (ts : Side) (p : Price) (a b : List Event) :
    makerIdsAt ts p (a ++ b) = makerIdsAt ts p a ++ makerIdsAt ts p b := by
  simp [makerIdsAt]

/-- A book update contributes no trade price. -/
theorem tradePrices_cons_book (ty : BookUpdateType) (sd : Side) (pr : Price)
    (q cnt sq : Nat) (evs : List Event) :
    tradePrices (Event.book ty sd pr q cnt sq :: evs) = tradePrices evs := by
  simp [tradePrices, List.filterMap_cons, Event.tradePrice?]

/-- A best-price event contributes no trade price. -/
theorem tradePrices_cons_best (a : Option Price) (b : ℤ) (c : Option Price)
    (d : ℤ) (evs : List Event) :
    tradePrices (Event.best a b c d :: evs) = tradePrices evs := by
  simp [tradePrices, List.filterMap_cons, Event.tradePrice?]

/-- A depth event contributes no trade price. -/
theorem tradePrices_cons_depth (a b : List (Price × ℤ × Nat))
    (evs : List Event) :
    tradePrices (Event.depth a b :: evs) = tradePrices evs := by
  simp [tradePrices, List.filterMap_cons, Event.tradePrice?]

/-- A trade event contributes its price. -/
theorem tradePrices_cons_trade (tid b sl : Nat) (q2 : Price) (qty : Nat)
    (evs : List Event) :
    tradePrices (Event.trade tid b sl q2 qty :: evs) = q2 :: tradePrices evs := by
  simp [tradePrices, List.filterMap_cons, Event.tradePrice?]

/-- A book update contributes no maker id. -/
theorem makerIdsAt_cons_book (ts : Side) (p : Price) (ty : BookUpdateType)
    (sd : Side) (pr : Price) (q cnt sq : Nat) (evs : List Event) :
    makerIdsAt ts p (Event.book ty sd pr q cnt sq :: evs) =
      makerIdsAt ts p evs := by
  simp [makerIdsAt, List.filterMap_cons]

/-- A best-price event contributes no maker id. -/
theorem makerIdsAt_cons_best (ts : Side) (p : Price) (a : Option Price)
    (b : ℤ) (c : Option Price) (d : ℤ) (evs : List Event) :
    makerIdsAt ts p (Event.best a b c d :: evs) = makerIdsAt ts p evs := by
  simp [makerIdsAt, List.filterMap_cons]

/-- A depth event contributes no maker id. -/
theorem makerIdsAt_cons_depth (ts : Side) (p : Price)
    (a b : List (Price × ℤ × Nat)) (evs : List Event) :
    makerIdsAt ts p (Event.depth a b :: evs) = makerIdsAt ts p evs := by
  simp [makerIdsAt, List.filterMap_cons]

/-- A trade event contributes its maker id when its price matches. -/
theorem makerIdsAt_cons_trade (ts : Side) (p : Price) (tid b sl : Nat)
    (q2 : Price) (qty : Nat) (evs : List Event) :
    makerIdsAt ts p (Event.trade tid b sl q2 qty :: evs) =
      (if q2 = p then [(match ts with | Side.buy => sl | Side.sell => b)] else [])
        ++ makerIdsAt ts p evs := by
  by_cases h : q2 = p <;>
    simp [makerIdsAt, List.filterMap_cons, h]

/-- The maker of a trade between a filled taker and a filled maker is the
maker, on either side. -/
theorem fill_maker_id (t m : Order) (qa qb : Nat) :
    (match t.side with
     | Side.buy => (if (t.fill qa).isBuy then (m.fill qb).id else (t.fill qa).id)
     | Side.sell => (if (t.fill qa).isBuy then (t.fill qa).id else (m.fill qb).id))
      = m.id := by
  cases ht : t.side <;> simp [Order.isBuy, Order.fill, ht]

/-- executeTrade leaves the book-update sequence counter alone. -/
theorem executeTrade_book_seq (s : EngineState) (t m : Order) (p : Price)
    (q : Nat) : (executeTrade s t m p q).book_seq = s.book_seq := rfl

/-- executeTrade appends exactly one trade event carrying the given price. -/
theorem executeTrade_events (s : EngineState) (t m : Order) (p : Price)
    (q : Nat) : (executeTrade s t m p q).events = s.events ++
      [Event.trade s.trade_counter (if t.isBuy then t.id else m.id)
        (if t.isBuy then m.id else t.id) p q] := rfl

/-- The match loop against one level appends only trade events at the
level's price plus book updates, the makers of those trades being an
in-order prefix of the level's FIFO queue; it touches neither ladder. -/
theorem matchLoop_spec (lvlPrice : Price) (queue : List Order) :
    ∀ (s : EngineState) (t : Order) (tot : ℤ),
    ∃ (dlt : List Event) (k : Nat),
      (matchLoop lvlPrice queue s t tot).1.events = s.events ++ dlt ∧
      (∀ q ∈ tradePrices dlt, q = lvlPrice) ∧
      (∀ p' : Price, makerIdsAt t.side p' dlt =
        (if p' = lvlPrice then (queue.map (fun x => x.id)).take k else [])) ∧
      (matchLoop lvlPrice queue s t tot).1.bids = s.bids ∧
      (matchLoop lvlPrice queue s t tot).1.asks = s.asks := by
  induction queue with
  | nil =>
      intro s t tot
      refine ⟨[], 0, by simp [matchLoop], ?_, ?_, rfl, rfl⟩
      · intro q hq
        simp [tradePrices] at hq
      · intro p'
        simp [makerIdsAt]
  | cons m rest ih =>
      intro s t tot
      unfold matchLoop
      by_cases h1 : t.isFullyFilled
      · rw [if_pos h1]
        refine ⟨[], 0, by simp, ?_, ?_, rfl, rfl⟩
        · intro q hq
          simp [tradePrices] at hq
        · intro p'
          simp [makerIdsAt]
      · rw [if_neg h1]
        by_cases h2 : min t.remainingQuantity m.remainingQuantity = 0
        · rw [if_pos h2]
          refine ⟨[], 0, by simp, ?_, ?_, rfl, rfl⟩
          · intro q hq
            simp [tradePrices] at hq
          · intro p'
            simp [makerIdsAt]
        · rw [if_neg h2]
          dsimp only
          by_cases h3 : (m.fill (min t.remainingQuantity m.remainingQuantity)).isFullyFilled
          · rw [if_pos h3]
            obtain ⟨dlt, k, he, hp, hmk, hb, ha⟩ :=
              ih { publishBookUpdate
                    (executeTrade s (t.fill (min t.remainingQuantity m.remainingQuantity))
                      (m.fill (min t.remainingQuantity m.remainingQuantity)) lvlPrice
                      (min t.remainingQuantity m.remainingQuantity))
                    BookUpdateType.remove
                    (m.fill (min t.remainingQuantity m.remainingQuantity)).side
                    (m.fill (min t.remainingQuantity m.remainingQuantity)).price 0
                    ((m :: rest).length - 1) with
                  order_index := aerase (publishBookUpdate
                    (executeTrade s (t.fill (min t.remainingQuantity m.remainingQuantity))
                      (m.fill (min t.remainingQuantity m.remainingQuantity)) lvlPrice
                      (min t.remainingQuantity m.remainingQuantity))
                    BookUpdateType.remove
                    (m.fill (min t.remainingQuantity m.remainingQuantity)).side
                    (m.fill (min t.remainingQuantity m.remainingQuantity)).price 0
                    ((m :: rest).length - 1)).order_index
                    (m.fill (min t.remainingQuantity m.remainingQuantity)).id }
                (t.fill (min t.remainingQuantity m.remainingQuantity))
                (tot - (min t.remainingQuantity m.remainingQuantity : Nat))
            have hmk2 : ∀ p', makerIdsAt t.side p' dlt =
                (if p' = lvlPrice then (rest.map (fun x => x.id)).take k else []) := hmk
            refine ⟨Event.trade s.trade_counter
                (if (t.fill (min t.remainingQuantity m.remainingQuantity)).isBuy
                  then (t.fill (min t.remainingQuantity m.remainingQuantity)).id
                  else (m.fill (min t.remainingQuantity m.remainingQuantity)).id)
                (if (t.fill (min t.remainingQuantity m.remainingQuantity)).isBuy
                  then (m.fill (min t.remainingQuantity m.remainingQuantity)).id
                  else (t.fill (min t.remainingQuantity m.remainingQuantity)).id)
                lvlPrice (min t.remainingQuantity m.remainingQuantity) ::
              Event.book BookUpdateType.remove
                (m.fill (min t.remainingQuantity m.remainingQuantity)).side
                (m.fill (min t.remainingQuantity m.remainingQuantity)).price 0
                ((m :: rest).length - 1) (s.book_seq + 1) :: dlt, k + 1,
              ?_, ?_, ?_, ?_, ?_⟩
            · rw [he]
              simp [publishBookUpdate, executeTrade_events, executeTrade_book_seq]
            · intro q hq
              rw [tradePrices_cons_trade, tradePrices_cons_book] at hq
              rcases List.mem_cons.mp hq with h | h
              · exact h
              · exact hp q h
            · intro p'
              rw [makerIdsAt_cons_trade, makerIdsAt_cons_book, fill_maker_id, hmk2 p']
              by_cases hpp : p' = lvlPrice
              · rw [if_pos hpp, if_pos hpp.symm, if_pos hpp]
                simp [List.take_succ_cons]
              · rw [if_neg hpp, if_neg (fun h => hpp h.symm), if_neg hpp]
                simp
            · exact hb.trans rfl
            · exact ha.trans rfl
          · rw [if_neg h3]
            refine ⟨Event.trade s.trade_counter
                (if (t.fill (min t.remainingQuantity m.remainingQuantity)).isBuy
                  then (t.fill (min t.remainingQuantity m.remainingQuantity)).id
                  else (m.fill (min t.remainingQuantity m.remainingQuantity)).id)
                (if (t.fill (min t.remainingQuantity m.remainingQuantity)).isBuy
                  then (m.fill (min t.remainingQuantity m.remainingQuantity)).id
                  else (t.fill (min t.remainingQuantity m.remainingQuantity)).id)
                lvlPrice (min t.remainingQuantity m.remainingQuantity) ::
              [Event.book BookUpdateType.modify
                (m.fill (min t.remainingQuantity m.remainingQuantity)).side
                (m.fill (min t.remainingQuantity m.remainingQuantity)).price
                (m.fill (min t.remainingQuantity m.remainingQuantity)).remainingQuantity
                ((m :: rest).length) (s.book_seq + 1)], 1,
              ?_, ?_, ?_, rfl, rfl⟩
            · simp [publishBookUpdate, executeTrade_events, executeTrade_book_seq]
            · intro q hq
              rw [tradePrices_cons_trade, tradePrices_cons_book] at hq
              rcases List.mem_cons.mp hq with h | h
              · exact h
              · simp [tradePrices] at h
            · intro p'
              rw [makerIdsAt_cons_trade, makerIdsAt_cons_book, fill_maker_id]
              by_cases hpp : p' = lvlPrice
              · rw [if_pos hpp.symm, if_pos hpp]
                simp [makerIdsAt, List.take_succ_cons]
              · rw [if_neg (fun h => hpp h.symm), if_neg hpp]
                simp [makerIdsAt]

/-- find-by-price at q ignores an in-place replacement at a different
price p. -/
theorem find?_map_setOther {p q : Price} {lvl : PriceLevel} (hq : q ≠ p)
    (hlp : lvl.price = p) :
    ∀ ls : List PriceLevel,
      List.find? (fun l => (l.price = q : Bool))
          (ls.map (fun l0 => if l0.price = p then lvl else l0))
        = List.find? (fun l => (l.price = q : Bool)) ls := by
  intro ls
  induction ls with
  | nil => rfl
  | cons x xs ih =>
      rw [List.map_cons]
      by_cases hx : x.price = p
      · simp only [if_pos hx, List.find?_cons,
          decide_eq_false (fun h : lvl.price = q => hq (h ▸ hlp)),
          decide_eq_false (fun h : x.price = q => hq (h ▸ hx))]
        exact ih
      · simp only [if_neg hx, List.find?_cons]
        by_cases hq2 : x.price = q
        · simp [hq2]
        · simp only [decide_eq_false hq2]
          exact ih

/-- Replacing the level at price p in place does not change find-by-price
at another price, when the replacement also carries price p. -/
theorem findLevel_setLevel_other {s : EngineState} {sd : Side} {p q : Price}
    {lvl : PriceLevel} (hq : q ≠ p) (hlp : lvl.price = p) :
    findLevel (setLevel s sd p lvl) sd q = findLevel s sd q := by
  have hladder : (setLevel s sd p lvl).ladder sd =
      (s.ladder sd).map (fun l0 => if l0.price = p then lvl else l0) := by
    cases sd <;> rfl
  unfold findLevel
  rw [hladder]
  exact find?_map_setOther hq hlp (s.ladder sd)

/-- find-by-price at q ignores filtering out the levels at a different
price. -/
theorem find?_filter_keep {q pr : Price} :
    ∀ ls : List PriceLevel, q ≠ pr →
      List.find? (fun l => (l.price = q : Bool))
          (ls.filter (fun l => !(l.price = pr : Bool)))
        = List.find? (fun l => (l.price = q : Bool)) ls := by
  intro ls hq
  induction ls with
  | nil => rfl
  | cons x xs ih =>
      by_cases hx : x.price = pr
      · rw [List.filter_cons, if_neg (by simp [hx])]
        simp only [List.find?_cons,
          decide_eq_false (fun h : x.price = q => hq (h ▸ hx))]
        exact ih
      · rw [List.filter_cons, if_pos (by simp [hx])]
        simp only [List.find?_cons]
        by_cases hq2 : x.price = q
        · simp [hq2]
        · simp only [decide_eq_false hq2]
          exact ih

/-- Removing a price level does not change find-by-price at another
price. -/
theorem findLevel_removePriceLevel_other {s : EngineState}
    {lv : PriceLevel} {sd : Side} {q : Price} (hq : q ≠ lv.price) :
    findLevel (removePriceLevel s lv sd) sd q = findLevel s sd q := by
  unfold removePriceLevel
  by_cases he : lv.isEmpty
  · rw [if_pos he]
    unfold findLevel
    cases sd
    · show List.find? (fun l => (l.price = q : Bool))
          (s.bids.filter (fun l => !(l.price = lv.price : Bool)))
        = List.find? (fun l => (l.price = q : Bool)) s.bids
      exact find?_filter_keep s.bids hq
    · show List.find? (fun l => (l.price = q : Bool))
          (s.asks.filter (fun l => !(l.price = lv.price : Bool)))
        = List.find? (fun l => (l.price = q : Bool)) s.asks
      exact find?_filter_keep s.asks hq
  · rw [if_neg he]

/-- Matching against the level resting at price p appends only trades at
that level's price, whose makers form an in-order prefix of the level's
FIFO queue, and leaves the opposite ladder's levels at all other prices
untouched. -/
theorem matchAgainstPriceLevel_spec (s : EngineState) (t : Order)
    (p : Price) {lvl : PriceLevel}
    (hfl : findLevel s t.side.opposite p = some lvl) :
    ∃ (dlt : List Event) (k : Nat),
      (matchAgainstPriceLevel s t p).1.events = s.events ++ dlt ∧
      (∀ q ∈ tradePrices dlt, q = lvl.price) ∧
      (∀ p' : Price, makerIdsAt t.side p' dlt =
        (if p' = lvl.price then (lvl.orders.map (fun x => x.id)).take k else [])) ∧
      (∀ q : Price, q ≠ p →
        findLevel (matchAgainstPriceLevel s t p).1 t.side.opposite q
          = findLevel s t.side.opposite q) := by
  obtain ⟨dlt, k, he, hp, hmk, hb, ha⟩ :=
    matchLoop_spec lvl.price lvl.orders s t lvl.total_quantity
  have hlp : lvl.price = p := findLevel_price hfl
  have hlad : ∀ x : Side,
      (matchLoop lvl.price lvl.orders s t lvl.total_quantity).1.ladder x
        = s.ladder x := by
    intro x
    cases x
    · exact hb
    · exact ha
  simp only [matchAgainstPriceLevel]
  rw [hfl]
  dsimp only
  generalize hR : matchLoop lvl.price lvl.orders s t lvl.total_quantity = r
  rw [hR] at he hb ha hlad
  generalize hL : ({
    price := lvl.price
    total_quantity := r.2.2.1
    orders := r.2.2.2 } : PriceLevel) = lvl1
  have hl1p : lvl1.price = p := by
    rw [← hL]
    exact hlp
  split
  · dsimp only
    refine ⟨dlt, k, ?_, hp, hmk, ?_⟩
    · rw [(seqState_removePriceLevel _ _ _).1, (seqState_setLevel _ _ _ _).1, he]
    · intro q hqp
      rw [findLevel_removePriceLevel_other (fun h => hqp (h.trans hl1p)),
        findLevel_setLevel_other hqp hl1p]
      unfold findLevel
      rw [hlad]
  · dsimp only
    refine ⟨dlt, k, ?_, hp, hmk, ?_⟩
    · rw [(seqState_setLevel _ _ _ _).1, he]
    · intro q hqp
      rw [findLevel_setLevel_other hqp hl1p]
      unfold findLevel
      rw [hlad]

/-- The match loop preserves the threaded taker's side and price. -/
theorem matchLoop_taker (lvlPrice : Price) (queue : List Order) :
    ∀ (s : EngineState) (t : Order) (tot : ℤ),
      (matchLoop lvlPrice queue s t tot).2.1.side = t.side ∧
      (matchLoop lvlPrice queue s t tot).2.1.price = t.price := by
  induction queue with
  | nil =>
      intro s t tot
      exact ⟨rfl, rfl⟩
  | cons m rest ih =>
      intro s t tot
      unfold matchLoop
      by_cases h1 : t.isFullyFilled
      · rw [if_pos h1]
        exact ⟨rfl, rfl⟩
      · rw [if_neg h1]
        by_cases h2 : min t.remainingQuantity m.remainingQuantity = 0
        · rw [if_pos h2]
          exact ⟨rfl, rfl⟩
        · rw [if_neg h2]
          dsimp only
          by_cases h3 : (m.fill (min t.remainingQuantity m.remainingQuantity)).isFullyFilled
          · rw [if_pos h3]
            exact ih _ _ _
          · rw [if_neg h3]
            exact ⟨rfl, rfl⟩

/-- Matching against a level preserves the taker's side and price. -/
theorem matchAgainstPriceLevel_taker (s : EngineState) (t : Order)
    (p : Price) :
    (matchAgainstPriceLevel s t p).2.side = t.side ∧
    (matchAgainstPriceLevel s t p).2.price = t.price := by
  simp only [matchAgainstPriceLevel]
  cases hfl : findLevel s t.side.opposite p with
  | none =>
      exact ⟨rfl, rfl⟩
  | some lvl =>
      dsimp only
      split
      · exact ⟨(matchLoop_taker _ _ _ _ _).1, (matchLoop_taker _ _ _ _ _).2⟩
      · exact ⟨(matchLoop_taker _ _ _ _ _).1, (matchLoop_taker _ _ _ _ _).2⟩

/-- Crossing only reads an order's side and price. -/
theorem canMatch_congr {t t' : Order} (hs : t'.side = t.side)
    (hp : t'.price = t.price) (p : Price) : canMatch t' p = canMatch t p := by
  unfold canMatch
  rw [hs, hp]

/-- dirR is reflexive. -/
theorem dirR_refl (sd : Side) (p : Price) : dirR sd p p := by
  cases sd <;> simp [dirR]

/-- A constant list is a chain for any relation reflexive at its value. -/
theorem chain'_of_const {R : Price → Price → Prop} {p : Price}
    (hR : R p p) : ∀ xs : List Price, (∀ q ∈ xs, q = p) →
      List.Chain' R xs := by
  intro xs
  induction xs with
  | nil =>
      intro h
      exact List.chain'_nil
  | cons x ys ih =>
      intro h
      cases ys with
      | nil => exact List.chain'_singleton x
      | cons y zs =>
          refine List.chain'_cons.mpr ⟨?_, ih ?_⟩
          · rw [h x (List.mem_cons_self x _), h y
              (List.mem_cons_of_mem x (List.mem_cons_self y _))]
            exact hR
          · intro q hq
            exact h q (List.mem_cons_of_mem x hq)

/-- The last element of a list is a member. -/
theorem mem_of_getLast_opt {α : Type} {l : List α} {x : α}
    (h : x ∈ l.getLast?) : x ∈ l := by
  rcases List.mem_getLast?_eq_getLast h with ⟨hne, hx⟩
  rw [hx]
  exact List.getLast_mem hne

/-- The head of a list is a member. -/
theorem mem_of_head_opt {α : Type} {l : List α} {x : α}
    (h : x ∈ l.head?) : x ∈ l := by
  rw [List.eq_cons_of_mem_head? h]
  exact List.mem_cons_self x _

/-- No maker ids are reported at a price no trade happened at. -/
theorem makerIdsAt_eq_nil_of_not_mem (ts : Side) (p : Price) :
    ∀ evs : List Event, p ∉ tradePrices evs → makerIdsAt ts p evs = [] := by
  intro evs
  induction evs with
  | nil =>
      intro _
      rfl
  | cons e rest ih =>
      intro h
      cases e with
      | book ty sd pr q cnt sq =>
          rw [makerIdsAt_cons_book]
          exact ih (by rw [tradePrices_cons_book] at h; exact h)
      | best a b c d =>
          rw [makerIdsAt_cons_best]
          exact ih (by rw [tradePrices_cons_best] at h; exact h)
      | depth a b =>
          rw [makerIdsAt_cons_depth]
          exact ih (by rw [tradePrices_cons_depth] at h; exact h)
      | trade tid b sl q2 qty =>
          rw [tradePrices_cons_trade] at h
          rw [makerIdsAt_cons_trade,
            if_neg (fun hq : q2 = p => h (hq ▸ List.mem_cons_self q2 _)),
            List.nil_append]
          exact ih (fun hm => h (List.mem_cons_of_mem q2 hm))

/-- The level walk over distinct, favourably ordered prices appends only
trades that cross at visited prices, in favourable price order, with the
makers at each price an in-order prefix of the FIFO queue resting there
at the start of the walk. -/
theorem matchWalk_spec (ps : List Price) :
    ∀ (s s0 : EngineState) (t : Order),
      (∀ q ∈ ps, findLevel s t.side.opposite q
        = findLevel s0 t.side.opposite q) →
      ps.Nodup →
      List.Pairwise (dirR t.side) ps →
      ∃ dlt : List Event,
        (matchWalk ps s t).1.events = s.events ++ dlt ∧
        (∀ q ∈ tradePrices dlt, q ∈ ps ∧ canMatch t q = true) ∧
        List.Chain' (dirR t.side) (tradePrices dlt) ∧
        (∀ p' : Price, makerIdsAt t.side p' dlt = [] ∨
          ∃ (lvl : PriceLevel) (k : Nat),
            findLevel s0 t.side.opposite p' = some lvl ∧
            makerIdsAt t.side p' dlt
              = (lvl.orders.map (fun x => x.id)).take k) := by
  induction ps with
  | nil =>
      intro s s0 t hinv hnd hpair
      refine ⟨[], by simp [matchWalk], ?_, by simp [tradePrices], ?_⟩
      · intro q hq
        simp [tradePrices] at hq
      · intro p'
        exact Or.inl rfl
  | cons p ps ih =>
      intro s s0 t hinv hnd hpair
      unfold matchWalk
      cases hfl : findLevel s t.side.opposite p with
      | none =>
          dsimp only
          obtain ⟨dlt, h1, h2, h3, h4⟩ :=
            ih s s0 t (fun q hq => hinv q (List.mem_cons_of_mem p hq))
              hnd.of_cons (List.pairwise_cons.mp hpair).2
          exact ⟨dlt, h1,
            fun q hq => ⟨List.mem_cons_of_mem p (h2 q hq).1, (h2 q hq).2⟩,
            h3, h4⟩
      | some lvl =>
          dsimp only
          by_cases hstop : (lvl.isEmpty || t.isFullyFilled) = true
          · rw [if_pos hstop]
            refine ⟨[], by simp, ?_, by simp [tradePrices], ?_⟩
            · intro q hq
              simp [tradePrices] at hq
            · intro p'
              exact Or.inl rfl
          · rw [if_neg hstop]
            by_cases hcm : (!canMatch t lvl.price) = true
            · rw [if_pos hcm]
              refine ⟨[], by simp, ?_, by simp [tradePrices], ?_⟩
              · intro q hq
                simp [tradePrices] at hq
              · intro p'
                exact Or.inl rfl
            · rw [if_neg hcm]
              have hcm' : canMatch t lvl.price = true := by
                simpa using hcm
              have hlp : lvl.price = p := findLevel_price hfl
              have hpmem : p ∉ ps := (List.nodup_cons.mp hnd).1
              obtain ⟨dlt1, k1, he1, hp1, hmk1, hpres⟩ :=
                matchAgainstPriceLevel_spec s t p hfl
              rcases hsp : matchAgainstPriceLevel s t p with ⟨s1, t1⟩
              rw [hsp] at he1 hpres
              dsimp only at he1 hpres ⊢
              have hts : t1.side = t.side := by
                have h0 := (matchAgainstPriceLevel_taker s t p).1
                rw [hsp] at h0
                exact h0
              have htp : t1.price = t.price := by
                have h0 := (matchAgainstPriceLevel_taker s t p).2
                rw [hsp] at h0
                exact h0
              have hinv1 : ∀ q ∈ ps, findLevel s1 t1.side.opposite q
                  = findLevel s0 t1.side.opposite q := by
                intro q hq
                rw [hts]
                have hqp : q ≠ p := fun h => hpmem (h ▸ hq)
                rw [hpres q hqp]
                exact hinv q (List.mem_cons_of_mem p hq)
              obtain ⟨dlt2, he2, hp2, hch2, hmk2⟩ :=
                ih s1 s0 t1 hinv1 hnd.of_cons
                  (by rw [hts]; exact (List.pairwise_cons.mp hpair).2)
              rw [hts] at hch2 hmk2
              refine ⟨dlt1 ++ dlt2, ?_, ?_, ?_, ?_⟩
              · rw [he2, he1, List.append_assoc]
              · intro q hq
                rw [tradePrices_append] at hq
                rcases List.mem_append.mp hq with h | h
                · have hql : q = lvl.price := hp1 q h
                  constructor
                  · rw [hql, hlp]
                    exact List.mem_cons_self p ps
                  · rw [hql]
                    exact hcm'
                · constructor
                  · exact List.mem_cons_of_mem p (hp2 q h).1
                  · rw [← canMatch_congr hts htp q]
                    exact (hp2 q h).2
              · rw [tradePrices_append]
                refine List.Chain'.append ?_ hch2 ?_
                · exact chain'_of_const (dirR_refl t.side lvl.price) _ hp1
                · intro x hx y hy
                  have hxp : x = p := (hp1 x (mem_of_getLast_opt hx)).trans hlp
                  have hyp : y ∈ ps := (hp2 y (mem_of_head_opt hy)).1
                  rw [hxp]
                  exact (List.pairwise_cons.mp hpair).1 y hyp
              · intro p'
                rw [makerIdsAt_append]
                by_cases hpp : p' = p
                · subst hpp
                  have h2nil : makerIdsAt t.side p' dlt2 = [] := by
                    apply makerIdsAt_eq_nil_of_not_mem
                    intro hm
                    exact hpmem (hp2 p' hm).1
                  right
                  refine ⟨lvl, k1, ?_, ?_⟩
                  · exact (hinv p' (List.mem_cons_self p' ps)).symm.trans hfl
                  · rw [h2nil, List.append_nil, hmk1 p', if_pos hlp.symm]
                · have h1nil : makerIdsAt t.side p' dlt1 = [] := by
                    rw [hmk1 p', if_neg (fun h => hpp (h.trans hlp))]
                  rw [h1nil, List.nil_append]
                  exact hmk2 p'

/-- Inserting into a pairwise-ordered list with a comparator deciding the
order keeps it pairwise ordered. -/
theorem insortBy_pairwise {lt : PriceLevel → PriceLevel → Bool}
    {R : PriceLevel → PriceLevel → Prop}
    (hlt : ∀ a b, lt a b = true → R a b)
    (hnlt : ∀ a b, lt a b = false → R b a)
    (htr : ∀ a b c, R a b → R b c → R a c)
    (x : PriceLevel) : ∀ ls : List PriceLevel, List.Pairwise R ls →
      List.Pairwise R (insortBy lt x ls) := by
  intro ls
  induction ls with
  | nil =>
      intro _
      simp [insortBy]
  | cons y ys ih =>
      intro h
      obtain ⟨hy2, hys⟩ := List.pairwise_cons.mp h
      unfold insortBy
      by_cases hy : lt y x
      · rw [if_pos hy]
        refine List.pairwise_cons.mpr ⟨?_, ih hys⟩
        intro z hz
        rcases List.mem_cons.mp ((insortBy_perm lt x ys).mem_iff.mp hz) with
          hzx | hzys
        · exact hzx ▸ hlt y x hy
        · exact hy2 z hzys
      · rw [if_neg hy]
        have hyf : lt y x = false := by
          cases hlt0 : lt y x
          · rfl
          · exact absurd hlt0 hy
        refine List.pairwise_cons.mpr ⟨?_, h⟩
        intro z hz
        rcases List.mem_cons.mp hz with hzy | hzys
        · exact hzy ▸ hnlt y x hyf
        · exact htr x y z (hnlt y x hyf) (hy2 z hzys)

/-- Sorting with a comparator deciding the order yields a pairwise-ordered
list. -/
theorem sortLevelsBy_pairwise {lt : PriceLevel → PriceLevel → Bool}
    {R : PriceLevel → PriceLevel → Prop}
    (hlt : ∀ a b, lt a b = true → R a b)
    (hnlt : ∀ a b, lt a b = false → R b a)
    (htr : ∀ a b c, R a b → R b c → R a c) :
    ∀ ls : List PriceLevel, List.Pairwise R (sortLevelsBy lt ls) := by
  intro ls
  induction ls with
  | nil => simp [sortLevelsBy]
  | cons y ys ih =>
      show List.Pairwise R (insortBy lt y (ys.foldr (insortBy lt) []))
      exact insortBy_pairwise hlt hnlt htr y _ ih

/-- find-by-price agrees across a permutation when prices are
duplicate-free. -/
theorem find?_perm_nodup {ls2 ls : List PriceLevel}
    (hperm : List.Perm ls2 ls)
    (hnd : (ls.map (fun l => l.price)).Nodup) (q : Price) :
    List.find? (fun l => (l.price = q : Bool)) ls2
      = List.find? (fun l => (l.price = q : Bool)) ls := by
  cases hf : List.find? (fun l => (l.price = q : Bool)) ls with
  | some u =>
      have hu : u ∈ ls := List.mem_of_find?_eq_some hf
      have hup : u.price = q := by simpa using List.find?_some hf
      exact find?_unique_mem (hperm.mem_iff.mpr hu) hup
        (fun l hl hlq => List.inj_on_of_nodup_map hnd
          (hperm.mem_iff.mp hl) hu (hlq.trans hup.symm))
  | none =>
      rw [List.find?_eq_none] at hf ⊢
      intro x hx
      exact hf x (hperm.mem_iff.mp hx)

/-- Re-sorting a duplicate-free ladder in place does not change
find-by-price. -/
theorem findLevel_setLadder_perm {s : EngineState} {sd : Side}
    {ls : List PriceLevel} (hperm : List.Perm ls (s.ladder sd))
    (hnd : ((s.ladder sd).map (fun l => l.price)).Nodup) (q : Price) :
    findLevel (s.setLadder sd ls) sd q = findLevel s sd q := by
  unfold findLevel
  have h1 : (s.setLadder sd ls).ladder sd = ls := by
    cases sd <;> rfl
  rw [h1]
  exact find?_perm_nodup hperm hnd q

/-- executeMatching on a duplicate-free opposite ladder: all trades are at
prices of resting opposite levels that the taker crosses, trade prices
move in the taker's favourable direction only, and the makers at each
level form an in-order prefix of that level's FIFO queue. -/
theorem executeMatching_spec (s : EngineState) (t : Order)
    (hnd : ((s.ladder t.side.opposite).map (fun l => l.price)).Nodup) :
    ∃ dlt : List Event,
      (executeMatching s t).1.events = s.events ++ dlt ∧
      (∀ q ∈ tradePrices dlt,
        (∃ l ∈ s.ladder t.side.opposite, l.price = q) ∧
          canMatch t q = true) ∧
      List.Chain' (dirR t.side) (tradePrices dlt) ∧
      (∀ l ∈ s.ladder t.side.opposite,
        (makerIdsAt t.side l.price dlt).isPrefixOf
          (l.orders.map (fun x => x.id)) = true) := by
  unfold executeMatching
  dsimp only
  set srt := sortLevelsBy
    (fun a b => match t.side with
      | Side.buy => a.price < b.price
      | Side.sell => a.price > b.price)
    (s.ladder t.side.opposite) with hsrt
  have hperm := sortLevelsBy_perm
    (fun a b => match t.side with
      | Side.buy => a.price < b.price
      | Side.sell => a.price > b.price)
    (s.ladder t.side.opposite)
  rw [← hsrt] at hperm
  have hndps : ((srt.map (fun l => l.price)).Nodup) :=
    ((hperm.map (fun l => l.price)).nodup_iff).mpr hnd
  have hpw0 : List.Pairwise
      (fun a b : PriceLevel => dirR t.side a.price b.price) srt := by
    rw [hsrt]
    refine sortLevelsBy_pairwise ?_ ?_ ?_ (s.ladder t.side.opposite)
    · intro a b hab
      cases hs2 : t.side
      · rw [hs2] at hab
        simp only [dirR]
        simp at hab
        exact le_of_lt hab
      · rw [hs2] at hab
        simp only [dirR]
        simp at hab
        exact le_of_lt hab
    · intro a b hab
      cases hs2 : t.side
      · rw [hs2] at hab
        simp only [dirR]
        simp at hab
        exact hab
      · rw [hs2] at hab
        simp only [dirR]
        simp at hab
        exact hab
    · intro a b c h1 h2
      cases hs2 : t.side
      · rw [hs2] at h1 h2
        simp only [dirR] at h1 h2 ⊢
        exact le_trans h1 h2
      · rw [hs2] at h1 h2
        simp only [dirR] at h1 h2 ⊢
        exact le_trans h2 h1
  obtain ⟨dlt, he, hq, hch, hmk⟩ := matchWalk_spec
    (srt.map (fun l => l.price)) (s.setLadder t.side.opposite srt) s t
    (fun q _ => findLevel_setLadder_perm hperm hnd q) hndps
    (List.pairwise_map.mpr hpw0)
  refine ⟨dlt, ?_, ?_, hch, ?_⟩
  · rw [he, (seqState_setLadder _ _ _).1]
  · intro q hqm
    obtain ⟨hmem, hcm⟩ := hq q hqm
    obtain ⟨l, hl, hlq⟩ := List.mem_map.mp hmem
    exact ⟨⟨l, hperm.mem_iff.mp hl, hlq⟩, hcm⟩
  · intro l hl
    rcases hmk l.price with hnil | ⟨lvl2, k, hf, heq⟩
    · rw [hnil]
      cases (l.orders.map (fun x => x.id)) <;> rfl
    · have hfl : findLevel s t.side.opposite l.price = some l := by
        unfold findLevel
        exact find?_unique_mem hl rfl
          (fun l2 hl2 hl2p => List.inj_on_of_nodup_map hnd hl2 hl hl2p)
      rw [hfl] at hf
      have hl2 : lvl2 = l := (Option.some.inj hf).symm
      subst hl2
      rw [heq]
      exact List.isPrefixOf_iff_prefix.mpr (List.take_prefix k _)

/-- processMatching on a duplicate-free opposite ladder: same guarantees
as executeMatching, trivially when it does not match. -/
theorem processMatching_spec (s : EngineState) (t : Order)
    (hnd : ((s.ladder t.side.opposite).map (fun l => l.price)).Nodup) :
    ∃ dlt : List Event,
      (processMatching s t).1.events = s.events ++ dlt ∧
      (∀ q ∈ tradePrices dlt,
        (∃ l ∈ s.ladder t.side.opposite, l.price = q) ∧
          canMatch t q = true) ∧
      List.Chain' (dirR t.side) (tradePrices dlt) ∧
      (∀ l ∈ s.ladder t.side.opposite,
        (makerIdsAt t.side l.price dlt).isPrefixOf
          (l.orders.map (fun x => x.id)) = true) := by
  unfold processMatching
  dsimp only
  cases hlast : (s.ladder t.side.opposite).getLast? with
  | none =>
      refine ⟨[], by simp, ?_, by simp [tradePrices], ?_⟩
      · intro q hq
        simp [tradePrices] at hq
      · intro l hl
        cases (l.orders.map (fun x => x.id)) <;> rfl
  | some best =>
      dsimp only
      by_cases hc : (canMatch t best.price && !best.isEmpty) = true
      · rw [if_pos hc]
        exact executeMatching_spec s t hnd
      · rw [if_neg hc]
        refine ⟨[], by simp, ?_, by simp [tradePrices], ?_⟩
        · intro q hq
          simp [tradePrices] at hq
        · intro l hl
          cases (l.orders.map (fun x => x.id)) <;> rfl

/-- A side never equals its opposite. -/
theorem opposite_ne (x : Side) : x.opposite ≠ x := by
  cases x <;> simp [Side.opposite]

/-- Any side is the requested one or its opposite. -/
theorem side_eq_or_opposite (sd x : Side) : sd = x ∨ sd = x.opposite := by
  cases sd <;> cases x <;> simp [Side.opposite]

/-- Replacing the price index leaves the ladders alone. -/
theorem ladder_set_price_index (s2 : EngineState)
    (pi : List (Price × Side)) (x : Side) :
    ({ s2 with price_index := pi }).ladder x = s2.ladder x := by
  cases x <;> rfl

/-- setLadder leaves the other ladder alone. -/
theorem ladder_setLadder_other (s : EngineState) (sd x : Side)
    (ls : List PriceLevel) (hx : x ≠ sd) :
    (s.setLadder sd ls).ladder x = s.ladder x := by
  cases sd <;> cases x <;> first | rfl | exact absurd rfl hx

/-- When no opposite level rests at the order's price,
findOrCreatePriceLevel resolves or creates on the order's own side and
leaves the opposite ladder untouched. -/
theorem findOrCreatePriceLevel_opposite (s : EngineState) (o : Order)
    (hNoOpp : ∀ l ∈ s.ladder o.side.opposite, l.price ≠ o.price) :
    (findOrCreatePriceLevel s o.price o.side).1.ladder o.side.opposite
      = s.ladder o.side.opposite ∧
    (findOrCreatePriceLevel s o.price o.side).2.1 = o.side := by
  have hopp : o.side.opposite ≠ o.side := opposite_ne o.side
  unfold findOrCreatePriceLevel
  cases hidx : alookup s.price_index o.price with
  | none =>
      dsimp only
      refine ⟨?_, rfl⟩
      rw [ladder_set_price_index, ladder_setLadder_other _ _ _ _ hopp]
  | some sd0 =>
      dsimp only
      cases hfl : findLevel s sd0 o.price with
      | some lvl =>
          dsimp only
          have hsd0 : sd0 = o.side := by
            rcases side_eq_or_opposite sd0 o.side with h | h
            · exact h
            · exact absurd (findLevel_price hfl)
                (hNoOpp lvl (by rw [← h]; exact findLevel_mem hfl))
          have hband : |lvl.price - o.price| < MinPriceIncrement := by
            rw [findLevel_price hfl]
            simp [MinPriceIncrement]
          rw [if_pos hband]
          exact ⟨rfl, hsd0⟩
      | none =>
          dsimp only
          refine ⟨?_, rfl⟩
          rw [ladder_set_price_index, ladder_setLadder_other _ _ _ _ hopp,
            ladder_set_price_index]

/-- When no opposite level rests at the order's price, resting the order
leaves the opposite ladder untouched. -/
theorem restIntoLevel_opposite (s : EngineState) (o : Order)
    (hNoOpp : ∀ l ∈ s.ladder o.side.opposite, l.price ≠ o.price) :
    (restIntoLevel s o).1.ladder o.side.opposite
      = s.ladder o.side.opposite := by
  obtain ⟨hlad, hside⟩ := findOrCreatePriceLevel_opposite s o hNoOpp
  have hopp : o.side.opposite ≠ o.side := opposite_ne o.side
  unfold restIntoLevel
  rcases hfc : findOrCreatePriceLevel s o.price o.side with ⟨s3, loc⟩
  rw [hfc] at hlad hside
  dsimp only at hlad hside ⊢
  cases hfl2 : findLevel s3 loc.1 loc.2 with
  | none => exact hlad
  | some lvl =>
      dsimp only
      rw [hside, ladder_setLevel_other _ _ _ _ _ hopp]
      exact hlad

/-- An event that is not a trade contributes no trade price. -/
theorem tradePrices_nontrade (e : Event) (evs : List Event)
    (h : Event.tradePrice? e = none) :
    tradePrices (e :: evs) = tradePrices evs := by
  simp [tradePrices, List.filterMap_cons, h]

/-- An event that is not a trade contributes no maker id. -/
theorem makerIdsAt_nontrade (ts : Side) (p : Price) (e : Event)
    (evs : List Event) (h : Event.tradePrice? e = none) :
    makerIdsAt ts p (e :: evs) = makerIdsAt ts p evs := by
  cases e with
  | trade tid b sl q2 qty => exact absurd h (by simp [Event.tradePrice?])
  | book ty sd pr q cnt sq => rw [makerIdsAt_cons_book]
  | best a b c d => rw [makerIdsAt_cons_best]
  | depth a b => rw [makerIdsAt_cons_depth]

/-- publishBookUpdate appends exactly one sequenced book event. -/
theorem publishBookUpdate_events (x : EngineState) (ty : BookUpdateType)
    (sd : Side) (p : Price) (q cnt : Nat) :
    (publishBookUpdate x ty sd p q cnt).events
      = x.events ++ [Event.book ty sd p q cnt (x.book_seq + 1)] := rfl

/-- publishMarketDataUpdate appends exactly two non-trade events. -/
theorem publishMarketDataUpdate_delta (x : EngineState) :
    ∃ e1 e2 : Event,
      (publishMarketDataUpdate x).events = x.events ++ [e1, e2] ∧
      Event.tradePrice? e1 = none ∧ Event.tradePrice? e2 = none := by
  refine ⟨Event.best (getBestPrices x).1.1 (getBestPrices x).1.2
      (getBestPrices x).2.1 (getBestPrices x).2.2,
    Event.depth (getDepth (emit x (Event.best (getBestPrices x).1.1
      (getBestPrices x).1.2 (getBestPrices x).2.1 (getBestPrices x).2.2)) 5).1
      (getDepth (emit x (Event.best (getBestPrices x).1.1 (getBestPrices x).1.2
        (getBestPrices x).2.1 (getBestPrices x).2.2)) 5).2, ?_, rfl, rfl⟩
  simp [publishMarketDataUpdate, emit]

/-- The post-resting tail of addOrder — publish the Add, match, write the
taker back, publish market data — relative to a pre-matching ladder that
permutes the original opposite ladder: every trade is at the price of an
original resting opposite level the order crosses, trade prices move only
in the taker's favourable direction, and the makers at each original level
form an in-order prefix of its FIFO queue. -/
theorem addOrder_tail_transport (s : EngineState) (order o1 : Order)
    (s6m : EngineState) (cnt : Nat)
    (ho1s : o1.side = order.side) (ho1p : o1.price = order.price)
    (hperm6 : List.Perm (s6m.ladder o1.side.opposite)
      (s.ladder order.side.opposite))
    (hnd : ((s.ladder order.side.opposite).map (fun l => l.price)).Nodup)
    (hev6 : s6m.events = s.events) :
    ∃ dlt : List Event,
      (publishMarketDataUpdate (storeOrderBack
          (processMatching (publishBookUpdate s6m BookUpdateType.add
            order.side order.price o1.remainingQuantity cnt) o1).1
          (processMatching (publishBookUpdate s6m BookUpdateType.add
            order.side order.price o1.remainingQuantity cnt) o1).2)).events
        = s.events ++ dlt ∧
      (∀ q ∈ tradePrices dlt,
        (∃ l ∈ s.ladder order.side.opposite, l.price = q) ∧
          canMatch order q = true) ∧
      List.Chain' (dirR order.side) (tradePrices dlt) ∧
      (∀ l ∈ s.ladder order.side.opposite,
        (makerIdsAt order.side l.price dlt).isPrefixOf
          (l.orders.map (fun x => x.id)) = true) := by
  have hnd6 : ((s6m.ladder o1.side.opposite).map (fun l => l.price)).Nodup :=
    ((hperm6.map (fun l => l.price)).nodup_iff).mpr hnd
  have h7lad : ∀ x : Side,
      (publishBookUpdate s6m BookUpdateType.add order.side order.price
        o1.remainingQuantity cnt).ladder x = s6m.ladder x :=
    fun x => ladder_publishBookUpdate _ _ _ _ _ _ x
  have hnd7 : (((publishBookUpdate s6m BookUpdateType.add order.side
      order.price o1.remainingQuantity cnt).ladder o1.side.opposite).map
      (fun l => l.price)).Nodup := by
    rw [h7lad]
    exact hnd6
  obtain ⟨dltM, heM, hqM, hchM, hmkM⟩ :=
    processMatching_spec (publishBookUpdate s6m BookUpdateType.add
      order.side order.price o1.remainingQuantity cnt) o1 hnd7
  obtain ⟨e1, e2, hPD, h1n, h2n⟩ := publishMarketDataUpdate_delta
    (storeOrderBack (processMatching (publishBookUpdate s6m
        BookUpdateType.add order.side order.price o1.remainingQuantity cnt)
        o1).1
      (processMatching (publishBookUpdate s6m BookUpdateType.add
        order.side order.price o1.remainingQuantity cnt) o1).2)
  have hTP : tradePrices (Event.book BookUpdateType.add order.side
      order.price o1.remainingQuantity cnt (s6m.book_seq + 1)
      :: (dltM ++ [e1, e2])) = tradePrices dltM := by
    rw [tradePrices_cons_book, tradePrices_append,
      tradePrices_nontrade e1 [e2] h1n, tradePrices_nontrade e2 [] h2n]
    simp [tradePrices]
  have hMI : ∀ (ts : Side) (pr : Price),
      makerIdsAt ts pr (Event.book BookUpdateType.add order.side
        order.price o1.remainingQuantity cnt (s6m.book_seq + 1)
        :: (dltM ++ [e1, e2])) = makerIdsAt ts pr dltM := by
    intro ts pr
    rw [makerIdsAt_cons_book, makerIdsAt_append,
      makerIdsAt_nontrade ts pr e1 [e2] h1n,
      makerIdsAt_nontrade ts pr e2 [] h2n]
    simp [makerIdsAt]
  refine ⟨Event.book BookUpdateType.add order.side order.price
      o1.remainingQuantity cnt (s6m.book_seq + 1) :: (dltM ++ [e1, e2]),
    ?_, ?_, ?_, ?_⟩
  · rw [hPD, (seqState_storeOrderBack _ _).1, heM,
      publishBookUpdate_events, hev6]
    simp
  · intro q2 hq2
    rw [hTP] at hq2
    obtain ⟨⟨l, hl, hlq⟩, hcm⟩ := hqM q2 hq2
    rw [h7lad] at hl
    refine ⟨⟨l, hperm6.mem_iff.mp hl, hlq⟩, ?_⟩
    rw [← canMatch_congr ho1s ho1p q2]
    exact hcm
  · rw [hTP, ← ho1s]
    exact hchM
  · intro l hl
    rw [hMI, ← ho1s]
    have := hmkM l (by rw [h7lad]; exact hperm6.mem_iff.mpr hl)
    exact this

/-- C4 amended: for every addOrder into a book whose per-ladder prices are
duplicate-free and whose OPPOSITE ladder holds no level at the incoming
order's exact price, the trades of that call execute at prices of
original resting opposite levels the order crosses (the maker's level
price), consume levels only from best price to worse (trade prices are
monotone in the taker's favourable direction), and within each original
level consume makers from the head in FIFO order (the maker ids at that
level's price form an in-order prefix of its queue).  The exact-price
exclusion is necessary: because addOrder rests the taker before matching
and findOrCreatePriceLevel resolves the shared price index without regard
to side, an order arriving at a resting opposite level's exact price is
appended to that very level and then trades against itself. -/
theorem c4_price_time_priority (lim : RiskLimits) (s : EngineState)
    (order : Order)
    (hnd : ((s.ladder order.side.opposite).map (fun l => l.price)).Nodup)
    (hNoOpp : ∀ l ∈ s.ladder order.side.opposite, l.price ≠ order.price) :
    ∃ dlt : List Event,
      (addOrder lim s order).1.events = s.events ++ dlt ∧
      (∀ q ∈ tradePrices dlt,
        (∃ l ∈ s.ladder order.side.opposite, l.price = q) ∧
          canMatch order q = true) ∧
      List.Chain' (dirR order.side) (tradePrices dlt) ∧
      (∀ l ∈ s.ladder order.side.opposite,
        (makerIdsAt order.side l.price dlt).isPrefixOf
          (l.orders.map (fun x => x.id)) = true) := by
  unfold addOrder
  dsimp only
  generalize (if order.account = "" then "default" else order.account) = acct
  split
  · refine ⟨[], by simp, ?_, by simp [tradePrices], ?_⟩
    · intro q hq
      simp [tradePrices] at hq
    · intro l hl
      cases (l.orders.map (fun x => x.id)) <;> rfl
  · split
    · refine ⟨[], by simp, ?_, by simp [tradePrices], ?_⟩
      · intro q hq
        simp [tradePrices] at hq
      · intro l hl
        cases (l.orders.map (fun x => x.id)) <;> rfl
    · generalize hO : ({
        id := order.id
        side := order.side
        otype := order.otype
        tif := order.tif
        price := order.price
        quantity := order.quantity
        filled_quantity := order.filled_quantity
        symbol := order.symbol
        account := order.account
        timestamp := s.now } : Order) = o1
      generalize hS2 : ({
        bids := s.bids
        asks := s.asks
        price_index := s.price_index
        order_index := s.order_index
        book_seq := s.book_seq
        trade_counter := s.trade_counter
        order_accounts := aset s.order_accounts order.id acct
        positions := s.positions
        events := s.events
        now := s.now + 1 } : EngineState) = s2
      have ho1s : o1.side = order.side := by rw [← hO]
      have ho1p : o1.price = order.price := by rw [← hO]
      have hs2lad : ∀ x : Side, s2.ladder x = s.ladder x := by
        intro x
        rw [← hS2]
        cases x <;> rfl
      have hs2ev : s2.events = s.events := by rw [← hS2]
      have hno1 : ∀ l ∈ s2.ladder o1.side.opposite, l.price ≠ o1.price := by
        intro l hl
        rw [ho1s, hs2lad] at hl
        rw [ho1p]
        exact hNoOpp l hl
      have hlad4 : (restIntoLevel s2 o1).1.ladder order.side.opposite
          = s.ladder order.side.opposite := by
        have h0 := restIntoLevel_opposite s2 o1 hno1
        rw [ho1s, hs2lad] at h0
        exact h0
      have hev4 : (restIntoLevel s2 o1).1.events = s.events := by
        rw [(seqState_restIntoLevel s2 o1).1, hs2ev]
      generalize hR4 : restIntoLevel s2 o1 = r4
      rw [hR4] at hlad4 hev4
      generalize hS5 : ({
        bids := r4.1.bids
        asks := r4.1.asks
        price_index := r4.1.price_index
        order_index := aset r4.1.order_index order.id {
          level_side := r4.2.1
          level_slot := slotOf r4.1 r4.2.1 r4.2.2
          side := order.side }
        book_seq := r4.1.book_seq
        trade_counter := r4.1.trade_counter
        order_accounts := r4.1.order_accounts
        positions := r4.1.positions
        events := r4.1.events
        now := r4.1.now } : EngineState) = s5
      have hs5lad : ∀ x : Side, s5.ladder x = r4.1.ladder x := by
        intro x
        rw [← hS5]
        cases x <;> rfl
      have hs5ev : s5.events = r4.1.events := by rw [← hS5]
      have hperm6 : List.Perm
          ((maintainSortedOrder s5).ladder o1.side.opposite)
          (s.ladder order.side.opposite) := by
        rw [ho1s, ladder_maintainSortedOrder, hs5lad, hlad4]
        exact sortLevelsBy_perm _ _
      have hev6 : (maintainSortedOrder s5).events = s.events := by
        rw [(seqState_maintainSortedOrder s5).1, hs5ev, hev4]
      cases hFL : findLevel (maintainSortedOrder s5) r4.2.1 r4.2.2 with
      | none =>
          dsimp only
          exact addOrder_tail_transport s order o1 (maintainSortedOrder s5) 0
            ho1s ho1p hperm6 hnd hev6
      | some lvl =>
          dsimp only
          exact addOrder_tail_transport s order o1 (maintainSortedOrder s5)
            lvl.order_count ho1s ho1p hperm6 hnd hev6

/-- C4 counterexample pre-state: one resting ask of 30 at 101.00 (id 10),
indexed. -/
def c4CxPre : EngineState :=
  { initState with
      asks := [{ price := 10100, total_quantity := 30,
                 orders := [mkOrder 10 Side.sell OrderType.limit TIF.gtc 10100 30] }],
      price_index := [(10100, Side.sell)] }

/-- The events appended by the C4 counterexample addOrder: a buy of 40 at
the resting ask's exact price 101.00. -/
def c4CxDelta : List Event :=
  ((addOrder demoLimits c4CxPre
      (mkOrder 50 Side.buy OrderType.limit TIF.gtc 10100 40)).1.events).drop
    c4CxPre.events.length

/-- C4: the claim fails on the code.  The incoming buy (id 50) at the
resting ask level's exact price 101.00 is appended to that very ask level
before matching (side-blind price index plus rest-before-match), so after
the resting maker (id 10) is consumed the loop matches the order against
its own resting copy: the second trade has buyer = seller = 50 — a trade
against the taker itself rather than a resting maker — and the maker ids
at 101.00 are [10, 50], not a prefix of the level's pre-call FIFO queue
[10]. -/
theorem c4_self_trade_breaks_fifo :
    Event.trade 2 50 50 10100 10 ∈ c4CxDelta ∧
    makerIdsAt Side.buy 10100 c4CxDelta = [10, 50] ∧
    ((c4CxPre.ladder Side.buy.opposite).map
      (fun l => l.orders.map (fun x => x.id))) = [[10]] ∧
    (makerIdsAt Side.buy 10100 c4CxDelta).isPrefixOf [10] = false := by
  refine ⟨?_, ?_, ?_, ?_⟩ <;> decide

/-- C4 witness pre-state: resting asks of 5 at 101.00 (id 10) and 7 at
102.00 (id 11), both indexed. -/
def c4WPre : EngineState :=
  { initState with
      asks := [{ price := 10100, total_quantity := 5,
                 orders := [mkOrder 10 Side.sell OrderType.limit TIF.gtc 10100 5] },
               { price := 10200, total_quantity := 7,
                 orders := [mkOrder 11 Side.sell OrderType.limit TIF.gtc 10200 7] }],
      price_index := [(10100, Side.sell), (10200, Side.sell)] }

/-- The C4 witness incoming buy of 8 at 102.50, crossing both asks. -/
def c4WOrder : Order := mkOrder 50 Side.buy OrderType.limit TIF.gtc 10250 8

/-- Witness for the C4 amended theorem: the concrete crossing buy trades
5 at 101.00 against maker 10 then 3 at 102.00 against maker 11. -/
theorem c4_price_time_priority_witness :
    ∃ dlt : List Event,
      (addOrder demoLimits c4WPre c4WOrder).1.events = c4WPre.events ++ dlt ∧
      (∀ q ∈ tradePrices dlt,
        (∃ l ∈ c4WPre.ladder c4WOrder.side.opposite, l.price = q) ∧
          canMatch c4WOrder q = true) ∧
      List.Chain' (dirR c4WOrder.side) (tradePrices dlt) ∧
      (∀ l ∈ c4WPre.ladder c4WOrder.side.opposite,
        (makerIdsAt c4WOrder.side l.price dlt).isPrefixOf
          (l.orders.map (fun x => x.id)) = true) :=
  c4_price_time_priority demoLimits c4WPre c4WOrder (by decide) (by decide)


/-- get? through map. -/
theorem get?_map_eq {A B : Type} (f : A → B) (L : List A) (n : Nat) :
    (L.map f).get? n = (L.get? n).map f := by
  induction L generalizing n with
  | nil => cases n <;> rfl
  | cons x xs ih => cases n with
      | zero => rfl
      | succ j => exact ih j

/-- Writing a live slot is read back. -/
theorem get?_set_same {A : Type} {L : List A} {i : Nat} {a : A} (b : A)
    (hg : L.get? i = some a) : (L.set i b).get? i = some b := by
  induction L generalizing i with
  | nil => cases i <;> exact Option.noConfusion hg
  | cons x xs ih => cases i with
      | zero => rfl
      | succ j => exact ih hg

/-- Reading another slot ignores a write. -/
theorem get?_set_other {A : Type} (L : List A) (i j : Nat) (b : A)
    (h : i ≠ j) : (L.set i b).get? j = L.get? j := by
  induction L generalizing i j with
  | nil => cases i <;> cases j <;> rfl
  | cons x xs ih =>
      cases i with
      | zero => cases j with
          | zero => exact absurd rfl h
          | succ j2 => rfl
      | succ i2 => cases j with
          | zero => rfl
          | succ j2 => exact ih i2 j2 (fun he => h (congrArg Nat.succ he))

/-- Erasing the slot just written erases the original content. -/
theorem eraseIdx_set_self {A : Type} (L : List A) (i : Nat) (b : A) :
    (L.set i b).eraseIdx i = L.eraseIdx i := by
  induction L generalizing i with
  | nil => cases i <;> rfl
  | cons x xs ih => cases i with
      | zero => rfl
      | succ j => exact congrArg (x :: ·) (ih j)

/-- map commutes with eraseIdx. -/
theorem map_eraseIdx_comm {A B : Type} (f : A → B) (L : List A) (i : Nat) :
    (L.eraseIdx i).map f = (L.map f).eraseIdx i := by
  induction L generalizing i with
  | nil => cases i <;> rfl
  | cons x xs ih => cases i with
      | zero => rfl
      | succ j => exact congrArg (f x :: ·) (ih j)

/-- A slot's content of a duplicate-free list does not survive erasing
that slot. -/
theorem not_mem_eraseIdx_of_nodup {A : Type} {L : List A} {i : Nat} {a : A}
    (hnd : L.Nodup) (hg : L.get? i = some a) : a ∉ L.eraseIdx i := by
  induction L generalizing i with
  | nil => cases i <;> exact Option.noConfusion hg
  | cons x xs ih =>
      obtain ⟨hx, hnd2⟩ := List.nodup_cons.mp hnd
      cases i with
      | zero =>
          obtain rfl : x = a := Option.some.inj hg
          simpa using hx
      | succ j =>
          intro hmem
          rw [List.eraseIdx_cons_succ] at hmem
          rcases List.mem_cons.mp hmem with rfl | hmem2
          · exact hx (List.get?_mem hg)
          · exact ih hnd2 hg hmem2

/-- Another slot's content survives erasing a slot. -/
theorem mem_eraseIdx_of_get?_ne {A : Type} {L : List A} {i k : Nat} {a : A}
    (hg : L.get? k = some a) (hk : k ≠ i) : a ∈ L.eraseIdx i := by
  induction L generalizing i k with
  | nil => cases k <;> exact Option.noConfusion hg
  | cons x xs ih =>
      cases i with
      | zero =>
          cases k with
          | zero => exact absurd rfl hk
          | succ k2 =>
              rw [List.eraseIdx_cons_zero]
              exact List.get?_mem hg
      | succ j =>
          rw [List.eraseIdx_cons_succ]
          cases k with
          | zero =>
              obtain rfl : x = a := Option.some.inj hg
              exact List.mem_cons_self x _
          | succ k2 =>
              exact List.mem_cons_of_mem x
                (ih hg (fun he => hk (congrArg Nat.succ he)))

/-- find? ignores erasure of a slot whose content fails the predicate. -/
theorem find?_eraseIdx_of_fail {A : Type} {L : List A} {i : Nat} {a : A}
    (pred : A → Bool) (hg : L.get? i = some a) (ha : pred a = false) :
    (L.eraseIdx i).find? pred = L.find? pred := by
  induction L generalizing i with
  | nil => cases i <;> exact Option.noConfusion hg
  | cons x xs ih =>
      cases i with
      | zero =>
          obtain rfl : x = a := Option.some.inj hg
          rw [List.eraseIdx_cons_zero, List.find?_cons_of_neg xs (by simp [ha])]
      | succ j =>
          rw [List.eraseIdx_cons_succ]
          by_cases hx : pred x = true
          · rw [List.find?_cons_of_pos _ hx, List.find?_cons_of_pos _ hx]
          · rw [List.find?_cons_of_neg _ hx, List.find?_cons_of_neg _ hx]
            exact ih hg

/-- find? ignores replacing a slot's content when neither the old nor
the new content satisfies the predicate. -/
theorem find?_set_of_fail {A : Type} {L : List A} {i : Nat} {a : A}
    (pred : A → Bool) (b : A) (hg : L.get? i = some a) (ha : pred a = false)
    (hb : pred b = false) :
    (L.set i b).find? pred = L.find? pred := by
  induction L generalizing i with
  | nil => cases i <;> exact Option.noConfusion hg
  | cons x xs ih =>
      cases i with
      | zero =>
          obtain rfl : x = a := Option.some.inj hg
          rw [List.set_cons_zero, List.find?_cons_of_neg xs (by simp [hb]),
            List.find?_cons_of_neg xs (by simp [ha])]
      | succ j =>
          rw [List.set_cons_succ]
          by_cases hx : pred x = true
          · rw [List.find?_cons_of_pos _ hx, List.find?_cons_of_pos _ hx]
          · rw [List.find?_cons_of_neg _ hx, List.find?_cons_of_neg _ hx]
            exact ih hg

/-- Replacing an unordered_map entry under one key leaves lookups of
other keys alone. -/
theorem alookup_aerase_other {A B : Type} [DecidableEq A]
    (l : List (A × B)) (k k2 : A) (h : k ≠ k2) :
    alookup (aerase l k2) k = alookup l k := by
  unfold alookup aerase
  induction l with
  | nil => rfl
  | cons x xs ih =>
      rw [List.filter_cons]
      by_cases hx : x.1 = k2
      · rw [if_neg (by simp [hx])]
        rw [List.find?_cons_of_neg xs
          (by simp only [decide_eq_true_eq]; exact fun he => h (he ▸ hx))]
        exact ih
      · rw [if_pos (by simp [hx])]
        by_cases hk : x.1 = k
        · rw [List.find?_cons_of_pos _ (by simp [hk]),
            List.find?_cons_of_pos _ (by simp [hk])]
        · rw [List.find?_cons_of_neg _ (by simp [hk]),
            List.find?_cons_of_neg _ (by simp [hk])]
          exact ih

/-- The slot written through a stored PriceLevel* reads back the written
level, provided the slot was live. -/
theorem levelAtSlot_setLevelAtSlot_self (s : EngineState) (sd : Side)
    (i : Nat) (lv lvl0 : PriceLevel)
    (h : levelAtSlot s sd i = some lvl0) :
    levelAtSlot (setLevelAtSlot s sd i lv) sd i = some lv := by
  have hl : (setLevelAtSlot s sd i lv).ladder sd = (s.ladder sd).set i lv := by
    cases sd <;> rfl
  unfold levelAtSlot at h ⊢
  rw [hl]
  exact get?_set_same lv h

/-- setLevelAtSlot writes the slot of its side's vector. -/
theorem ladder_setLevelAtSlot_self (s : EngineState) (sd : Side) (i : Nat)
    (lv : PriceLevel) :
    (setLevelAtSlot s sd i lv).ladder sd = (s.ladder sd).set i lv := by
  cases sd <;> rfl

/-- setLevelAtSlot leaves the price index alone. -/
theorem price_index_setLevelAtSlot (s : EngineState) (sd : Side) (i : Nat)
    (lv : PriceLevel) :
    (setLevelAtSlot s sd i lv).price_index = s.price_index := by
  cases sd <;> rfl

/-- Dereferencing a PriceLevel* is unchanged by publishBookUpdate. -/
theorem levelAtSlot_publishBookUpdate (s : EngineState) (ty : BookUpdateType)
    (sd : Side) (p : Price) (q cnt : Nat) (x : Side) (i : Nat) :
    levelAtSlot (publishBookUpdate s ty sd p q cnt) x i = levelAtSlot s x i := by
  unfold levelAtSlot
  rw [ladder_publishBookUpdate]

/-- The ladders are unchanged by rewriting the order index. -/
theorem ladder_set_order_index (s : EngineState)
    (oi : List (Nat × OrderLocation)) (x : Side) :
    ({ s with order_index := oi }).ladder x = s.ladder x := by
  cases x <;> rfl

/-- A level keeps its price when an order is appended at its tail. -/
theorem addOrder_level_price (lvl : PriceLevel) (o : Order) :
    (lvl.addOrder o).price = lvl.price := rfl

/-- No order with the removed id remains in a level's queue after
removeOrder. -/
theorem removeOrder_find?_none (lvl : PriceLevel) (oid : Nat) :
    (lvl.removeOrder oid).orders.find? (fun x => x.id = oid) = none := by
  unfold PriceLevel.removeOrder
  cases hf : lvl.orders.find? (fun m => m.id = oid) with
  | none => exact hf
  | some m =>
      dsimp only
      rw [List.find?_eq_none]
      intro x hx
      simpa using List.of_mem_filter hx

/-- removePriceLevel on a stored pointer whose level is empty, with the
side naming the pointer's own vector: the price-index entry goes, and the
slot is erased from the vector. -/
theorem removePriceLevelAt_own (s : EngineState) (sd : Side) (slot : Nat)
    (lv : PriceLevel) (h : levelAtSlot s sd slot = some lv)
    (hE : lv.isEmpty = true) :
    (removePriceLevelAt s sd slot sd).ladder sd = (s.ladder sd).eraseIdx slot ∧
    (removePriceLevelAt s sd slot sd).price_index =
      aerase s.price_index lv.price := by
  unfold removePriceLevelAt
  rw [h]
  dsimp only
  rw [if_pos hE, if_pos rfl]
  constructor
  · cases sd <;> rfl
  · cases sd <;> rfl

/-- When the price index already resolves the price to a ladder that
holds a level at it, findOrCreatePriceLevel returns the state unchanged
and that level's location (the band check passes: the level's price IS
the price). -/
theorem findOrCreatePriceLevel_hit (s : EngineState) (p : Price)
    (sd sd0 : Side) (tlvl : PriceLevel)
    (hidx : alookup s.price_index p = some sd0)
    (hfl : findLevel s sd0 p = some tlvl) :
    findOrCreatePriceLevel s p sd = (s, (sd0, p)) := by
  unfold findOrCreatePriceLevel
  rw [hidx]
  dsimp only
  rw [hfl]
  dsimp only
  rw [if_pos (by rw [findLevel_price hfl]; simp [MinPriceIncrement])]

/-- Resting an order whose price the index already resolves to an
existing level appends it at the tail of that level's queue, in place. -/
theorem restIntoLevel_hit (s : EngineState) (o : Order) (sd0 : Side)
    (tlvl : PriceLevel)
    (hidx : alookup s.price_index o.price = some sd0)
    (hfl : findLevel s sd0 o.price = some tlvl) :
    restIntoLevel s o =
      (setLevel s sd0 o.price (tlvl.addOrder o), (sd0, o.price)) := by
  unfold restIntoLevel
  rw [findOrCreatePriceLevel_hit s o.price o.side sd0 tlvl hidx hfl]
  dsimp only
  rw [hfl]

/-- After replacing the level at the target price with u and re-sorting,
u is the unique level found at that price; and every level found at the
old price comes from the pre-replacement ladder. -/
theorem sortedLadder_spec (s9 s3 : EngineState) (oid : Nat) (m : Order)
    (np : Price) (u : PriceLevel)
    (hlad : s9.ladder m.side = (setLevel s3 m.side np u).ladder m.side)
    (hup : u.price = np)
    (hmem : u ∈ (setLevel s3 m.side np u).ladder m.side)
    (hold : ∀ l ∈ s3.ladder m.side, l.price = m.price →
        l.orders.find? (fun x => x.id = oid) = none)
    (hmp : m.price ≠ np) :
    findLevel (maintainSortedOrder s9) m.side np = some u ∧
    (∀ lvl3, findLevel (maintainSortedOrder s9) m.side m.price = some lvl3 →
      lvl3.orders.find? (fun x => x.id = oid) = none) := by
  constructor
  · apply findLevel_maintainSortedOrder_unique
    · rw [hlad]
      exact hmem
    · exact hup
    · intro l hl hlp
      rw [hlad] at hl
      rcases mem_ladder_setLevel_same hl with rfl | ⟨hl0, hne⟩
      · rfl
      · exact absurd hlp hne
  · intro lvl3 hf3
    have hmem3 : lvl3 ∈ (maintainSortedOrder s9).ladder m.side :=
      findLevel_mem hf3
    have hp3 : lvl3.price = m.price := findLevel_price hf3
    rw [ladder_maintainSortedOrder] at hmem3
    have hmem4 : lvl3 ∈ s9.ladder m.side :=
      (sortLevelsBy_perm _ _).mem_iff.mp hmem3
    rw [hlad] at hmem4
    rcases mem_ladder_setLevel_same hmem4 with rfl | ⟨hmem0, hne⟩
    · exact absurd (hp3.symm.trans hup) hmp
    · exact hold lvl3 hmem0 hp3

/-- The replacement level is a member of the rewritten ladder whenever a
level at the replaced price was. -/
theorem mem_ladder_setLevel_of_price (s : EngineState) (sd : Side)
    (p : Price) (lv l0 : PriceLevel) (h0 : l0 ∈ s.ladder sd)
    (hp : l0.price = p) : lv ∈ (setLevel s sd p lv).ladder sd := by
  have hladder : (setLevel s sd p lv).ladder sd =
      (s.ladder sd).map (fun l => if l.price = p then lv else l) := by
    cases sd <;> rfl
  rw [hladder]
  exact List.mem_map.mpr ⟨l0, h0, by rw [if_pos hp]⟩

/-- The price-changing block of modifyOrder, run through a live, fresh
location onto a target price whose level already rests on the order's
own ladder: the order leaves its old level and is appended at the tail
of the target level, unchanged except for its price. -/
theorem modifyMovePrice_occupied (s : EngineState) (oid : Nat) (np : Price)
    (loc : OrderLocation) (lvl tlvl : PriceLevel) (m : Order)
    (hsl : levelAtSlot s loc.level_side loc.level_slot = some lvl)
    (hlp : lvl.price = m.price)
    (hls : loc.level_side = m.side)
    (hlo : loc.side = m.side)
    (hmp : m.price ≠ np)
    (hidx : alookup s.price_index np = some m.side)
    (htl : findLevel s m.side np = some tlvl)
    (hnd : ((s.ladder m.side).map (fun l => l.price)).Nodup) :
    findLevel (modifyMovePrice s oid loc m np).1 m.side np =
      some (tlvl.addOrder { m with price := np }) ∧
    (∀ lvl3, findLevel (modifyMovePrice s oid loc m np).1 m.side m.price =
        some lvl3 → lvl3.orders.find? (fun x => x.id = oid) = none) := by
  obtain ⟨lls, lslot, lsd⟩ := loc
  dsimp only at hsl hls hlo
  subst hls
  subst hlo
  have hgs : (s.ladder m.side).get? lslot = some lvl := hsl
  have hlvl2 : levelAtSlot (setLevelAtSlot s m.side lslot
      (lvl.removeOrder oid)) m.side lslot = some (lvl.removeOrder oid) :=
    levelAtSlot_setLevelAtSlot_self s m.side lslot (lvl.removeOrder oid)
      lvl hsl
  have haB : (fun l : PriceLevel => (l.price = np : Bool)) lvl = false := by
    show (lvl.price = np : Bool) = false
    rw [hlp]
    exact decide_eq_false hmp
  have hbB : (fun l : PriceLevel => (l.price = np : Bool))
      (lvl.removeOrder oid) = false := by
    show ((lvl.removeOrder oid).price = np : Bool) = false
    rw [removeOrder_price, hlp]
    exact decide_eq_false hmp
  have hmapslot : ((s.ladder m.side).map (fun l0 => l0.price)).get? lslot
      = some m.price := by
    rw [get?_map_eq, hgs]
    simp [hlp]
  unfold modifyMovePrice
  dsimp only
  rw [hsl]
  dsimp only
  rw [hlvl2]
  dsimp only
  rw [levelAtSlot_publishBookUpdate, hlvl2]
  dsimp only
  by_cases hE : (lvl.removeOrder oid).isEmpty = true
  · rw [if_pos hE]
    have hsl2 : levelAtSlot (publishBookUpdate
        (setLevelAtSlot s m.side lslot (lvl.removeOrder oid))
        BookUpdateType.remove m.side m.price m.remainingQuantity
        (lvl.removeOrder oid).order_count) m.side lslot
        = some (lvl.removeOrder oid) := by
      rw [levelAtSlot_publishBookUpdate]
      exact hlvl2
    obtain ⟨hlad3, hpi3⟩ := removePriceLevelAt_own _ m.side lslot
      (lvl.removeOrder oid) hsl2 hE
    rw [ladder_publishBookUpdate, ladder_setLevelAtSlot_self,
      eraseIdx_set_self] at hlad3
    rw [price_index_publishBookUpdate, price_index_setLevelAtSlot,
      removeOrder_price, hlp] at hpi3
    have hidxA : alookup (removePriceLevelAt (publishBookUpdate
        (setLevelAtSlot s m.side lslot (lvl.removeOrder oid))
        BookUpdateType.remove m.side m.price m.remainingQuantity
        (lvl.removeOrder oid).order_count) m.side lslot m.side).price_index
        ({ m with price := np } : Order).price
        = some ({ m with price := np } : Order).side := by
      show alookup _ np = some m.side
      rw [hpi3, alookup_aerase_other s.price_index np m.price (Ne.symm hmp)]
      exact hidx
    have hflA : findLevel (removePriceLevelAt (publishBookUpdate
        (setLevelAtSlot s m.side lslot (lvl.removeOrder oid))
        BookUpdateType.remove m.side m.price m.remainingQuantity
        (lvl.removeOrder oid).order_count) m.side lslot m.side)
        ({ m with price := np } : Order).side
        ({ m with price := np } : Order).price = some tlvl := by
      show findLevel _ m.side np = some tlvl
      unfold findLevel
      rw [hlad3, find?_eraseIdx_of_fail _ hgs haB]
      exact htl
    have holdA : ∀ l ∈ (removePriceLevelAt (publishBookUpdate
        (setLevelAtSlot s m.side lslot (lvl.removeOrder oid))
        BookUpdateType.remove m.side m.price m.remainingQuantity
        (lvl.removeOrder oid).order_count) m.side lslot m.side).ladder m.side,
        l.price = m.price → l.orders.find? (fun x => x.id = oid) = none := by
      rw [hlad3]
      intro l hl hlp3
      exfalso
      apply not_mem_eraseIdx_of_nodup hnd hmapslot
      rw [← map_eraseIdx_comm]
      exact List.mem_map.mpr ⟨l, hl, hlp3⟩
    rw [restIntoLevel_hit _ ({ m with price := np }) m.side tlvl hidxA hflA]
    dsimp only
    refine sortedLadder_spec _ _ oid m np _ ?_ ?_ ?_ holdA hmp
    · rw [ladder_set_order_index, ladder_publishBookUpdate]
    · rw [addOrder_level_price]
      exact findLevel_price htl
    · exact mem_ladder_setLevel_of_price _ m.side np _ tlvl
        (findLevel_mem hflA) (findLevel_price hflA)
  · rw [if_neg hE]
    have hidxB : alookup (publishBookUpdate
        (setLevelAtSlot s m.side lslot (lvl.removeOrder oid))
        BookUpdateType.remove m.side m.price m.remainingQuantity
        (lvl.removeOrder oid).order_count).price_index
        ({ m with price := np } : Order).price
        = some ({ m with price := np } : Order).side := by
      show alookup _ np = some m.side
      rw [price_index_publishBookUpdate, price_index_setLevelAtSlot]
      exact hidx
    have hflB : findLevel (publishBookUpdate
        (setLevelAtSlot s m.side lslot (lvl.removeOrder oid))
        BookUpdateType.remove m.side m.price m.remainingQuantity
        (lvl.removeOrder oid).order_count)
        ({ m with price := np } : Order).side
        ({ m with price := np } : Order).price = some tlvl := by
      show findLevel _ m.side np = some tlvl
      unfold findLevel
      rw [ladder_publishBookUpdate, ladder_setLevelAtSlot_self,
        find?_set_of_fail _ _ hgs haB hbB]
      exact htl
    have holdB : ∀ l ∈ (publishBookUpdate
        (setLevelAtSlot s m.side lslot (lvl.removeOrder oid))
        BookUpdateType.remove m.side m.price m.remainingQuantity
        (lvl.removeOrder oid).order_count).ladder m.side,
        l.price = m.price → l.orders.find? (fun x => x.id = oid) = none := by
      rw [ladder_publishBookUpdate, ladder_setLevelAtSlot_self]
      intro l hl hlp3
      rcases List.mem_iff_get?.mp hl with ⟨k, hk⟩
      by_cases hkslot : k = lslot
      · subst hkslot
        have hks := get?_set_same (lvl.removeOrder oid) hgs
        obtain rfl : l = lvl.removeOrder oid :=
          Option.some.inj (hk.symm.trans hks)
        exact removeOrder_find?_none lvl oid
      · exfalso
        rw [get?_set_other _ lslot k _ (fun he => hkslot he.symm)] at hk
        have hmapk : ((s.ladder m.side).map (fun l0 => l0.price)).get? k
            = some m.price := by
          rw [get?_map_eq, hk]
          simp [hlp3]
        exact not_mem_eraseIdx_of_nodup hnd hmapslot
          (mem_eraseIdx_of_get?_ne hmapk hkslot)
    rw [restIntoLevel_hit _ ({ m with price := np }) m.side tlvl hidxB hflB]
    dsimp only
    refine sortedLadder_spec _ _ oid m np _ ?_ ?_ ?_ holdB hmp
    · rw [ladder_set_order_index, ladder_publishBookUpdate]
    · rw [addOrder_level_price]
      exact findLevel_price htl
    · exact mem_ladder_setLevel_of_price _ m.side np _ tlvl
        (findLevel_mem hflB) (findLevel_price hflB)

/-- C8 (amended): a price-changing modifyOrder behaves as a cancel of the
order followed by re-resting it at the new price: when the stored
location is live and fresh (the slot the stored PriceLevel* designates
still holds the order's level), the new price is positive and outside
the MinPriceIncrement band of the old, the shared price index resolves
the new price to the order's own side, a level already rests there, and
the ladder's prices are duplicate-free, then the modify succeeds, the
order leaves the level at its old price, and it is appended at the TAIL
of the queue of the level at the new price — losing time priority — but
it carries its ORIGINAL timestamp, not a new engine-assigned one: no
clause of modifyOrder ever touches the timestamp. -/
theorem c8_price_move_keeps_original_timestamp (s : EngineState) (oid : Nat)
    (np : Price) (loc : OrderLocation) (lvl tlvl : PriceLevel) (m : Order)
    (h1 : alookup s.order_index oid = some loc)
    (h2 : lookupOrder s oid = some m)
    (h3 : levelAtSlot s loc.level_side loc.level_slot = some lvl)
    ( _h4 : lvl.orders.find? (fun x => x.id = oid) = some m)
    (h5 : lvl.price = m.price)
    (h6 : loc.level_side = m.side)
    (h7 : loc.side = m.side)
    (h8 : 0 < np)
    (h9 : MinPriceIncrement < |m.price - np|)
    (h10 : alookup s.price_index np = some m.side)
    (h11 : findLevel s m.side np = some tlvl)
    (h12 : ((s.ladder m.side).map (fun l => l.price)).Nodup) :
    (modifyOrder s oid np 0).2 = Except.ok true ∧
    (∃ lvl2, findLevel (modifyOrder s oid np 0).1 m.side np = some lvl2 ∧
      lvl2.orders = tlvl.orders ++ [{ m with price := np }] ∧
      (lvl2.orders.getLast?).map (fun x => x.timestamp) = some m.timestamp) ∧
    (∀ lvl3, findLevel (modifyOrder s oid np 0).1 m.side m.price = some lvl3 →
      lvl3.orders.find? (fun x => x.id = oid) = none) := by
  have hmp : m.price ≠ np := by
    intro he
    rw [he] at h9
    simp [MinPriceIncrement] at h9
  obtain ⟨hA, hB⟩ := modifyMovePrice_occupied s oid np loc lvl tlvl m h3 h5
    h6 h7 hmp h10 h11 h12
  unfold modifyOrder
  rw [h1]
  dsimp only
  rw [h2]
  dsimp only
  rw [if_pos (show 0 < np ∧ MinPriceIncrement < |m.price - np| from ⟨h8, h9⟩)]
  rcases hmm : modifyMovePrice s oid loc m np with ⟨sm, locm, om⟩
  rw [hmm] at hA hB
  dsimp only at hA hB
  dsimp only
  rw [if_neg (lt_irrefl 0)]
  refine ⟨rfl, ⟨tlvl.addOrder { m with price := np }, ?_, rfl, ?_⟩, ?_⟩
  · rw [findLevel_publishMarketDataUpdate]
    exact hA
  · show ((tlvl.orders ++ [({ m with price := np } : Order)]).getLast?).map
      (fun x => x.timestamp) = some m.timestamp
    rw [List.getLast?_concat]
    rfl
  · intro lvl3 hf3
    rw [findLevel_publishMarketDataUpdate] at hf3
    exact hB lvl3 hf3

/-- Witness for the amended C8 theorem on the C8 trace: moving order 2
(resting at 100.00, timestamp 1) onto the occupied 101.00 level with
new_quantity 0. -/
theorem c8_price_move_witness :
    (modifyOrder c8Pre 2 10100 0).2 = Except.ok true ∧
    (∃ lvl2, findLevel (modifyOrder c8Pre 2 10100 0).1 Side.buy 10100 =
        some lvl2 ∧
      lvl2.orders = [mkOrder 1 Side.buy OrderType.limit TIF.gtc 10100 5]
        ++ [{ mkOrder 2 Side.buy OrderType.limit TIF.gtc 10000 5 with
              price := 10100, timestamp := 1 }] ∧
      (lvl2.orders.getLast?).map (fun x => x.timestamp) = some 1) ∧
    (∀ lvl3, findLevel (modifyOrder c8Pre 2 10100 0).1 Side.buy 10000 =
        some lvl3 →
      lvl3.orders.find? (fun x => x.id = 2) = none) :=
  c8_price_move_keeps_original_timestamp c8Pre 2 10100
    { level_side := Side.buy, level_slot := 0, side := Side.buy }
    { price := 10000, total_quantity := 5,
      orders := [{ mkOrder 2 Side.buy OrderType.limit TIF.gtc 10000 5 with
        timestamp := 1 }] }
    { price := 10100, total_quantity := 5,
      orders := [mkOrder 1 Side.buy OrderType.limit TIF.gtc 10100 5] }
    { mkOrder 2 Side.buy OrderType.limit TIF.gtc 10000 5 with timestamp := 1 }
    (by decide) (by decide) (by decide) (by decide) (by decide) (by decide)
    (by decide) (by decide) (by decide) (by decide) (by decide) (by decide)

end Orderbook
